import Mathlib

/-!
Verification of the BSplinebasis repository against its specification.

The development shallowly embeds the spline code over the exact scalar
type `ℚ` (the C++ code is generic in its arithmetic type `T`; every
operation used is field arithmetic and comparisons, which `ℚ` models
exactly and executably).

Embedded components:
* the legacy `myspline::myspline` spline class (src/unnamed/part_003):
  data model, evaluation, algebra, transformations;
* the `myspline::internal::support` / grid layer
  (src/include/spline-internal.h and src/unnamed/part_002);
* the deprecated analytical integration routines
  (src/tests/bspline/integration/analytical.h);
* the `okruz::bspline::BSplineGenerator` (src/unnamed/part_004).

The C++ template parameter `order` (the polynomial order; coefficient
arrays are `std::array<T, order+1>`) is represented by a runtime field
`order`, with the array-length invariant carried explicitly: a C++
`std::array<T, n>` always has exactly `n` entries, so a faithful list
model keeps the corresponding length facts as an invariant.
-/

namespace BSplineVerif

/-- Spline data of the legacy `myspline::myspline<T, order>` class
(src/unnamed/part_003): `_intervals` are the N+1 grid points of the
support, `_coefficients` the per-interval coefficient arrays. -/
structure MySpline where
  order : ℕ
  intervals : List ℚ
  coefficients : List (List ℚ)
deriving DecidableEq, Repr

/-- `myspline::make_array`: an array with all entries set to `val`. -/
def make_array (n : ℕ) (val : ℚ) : List ℚ :=
  List.replicate n val

/-- `myspline::changearraysize`: copy into a (weakly larger) array,
padding with zeros. -/
def changearraysize (sizeout : ℕ) (l : List ℚ) : List ℚ :=
  (List.range sizeout).map (fun i => l.getD i 0)

/-- `myspline::add` on coefficient arrays: entrywise sum, the shorter
array treated as zero-padded to the longer length.  The C++ template
sizes `sizea`, `sizeb` are the list lengths (array-length invariant). -/
def addArr (a b : List ℚ) : List ℚ :=
  (List.range (max a.length b.length)).map (fun i => a.getD i 0 + b.getD i 0)

/-- `myspline::makeuniquesorted`: `std::sort` followed by `std::unique`.
On the sorted list, removing consecutive duplicates is exactly `dedup`.
Any comparison sort yields the same list (sorted permutations under `≤`
agree), so `insertionSort` models `std::sort` extensionally. -/
def makeuniquesorted (l : List ℚ) : List ℚ :=
  (l.insertionSort (· ≤ ·)).dedup

/-- `myspline::steadilyIncreasingIntervals`: adjacent grid points
strictly increase (the loop checks `_intervals[i-1] < _intervals[i]`). -/
def steadilyIncreasingIntervals : List ℚ → Bool
  | [] => true
  | [_] => true
  | a :: b :: t => decide (a < b) && steadilyIncreasingIntervals (b :: t)

/-- The data invariant asserted by `myspline::setData` and the
`myspline` constructor, plus the `std::array<T, order+1>` length fact
that C++ enforces at the type level. -/
def validSpline (s : MySpline) : Prop :=
  steadilyIncreasingIntervals s.intervals = true ∧
  ((s.intervals = [] ∧ s.coefficients = []) ∨
    (2 ≤ s.intervals.length ∧ s.coefficients.length + 1 = s.intervals.length)) ∧
  (∀ c ∈ s.coefficients, c.length = s.order + 1)

instance (s : MySpline) : Decidable (validSpline s) := by
  unfold validSpline; infer_instance

/-- The binary-search loop inside `myspline::findInterval`:
`while (endi - starti > 1) { middlei = (endi+starti)/2;
 if (x > _intervals[middlei]) starti = middlei; else endi = middlei; }`. -/
def findIntervalLoop (ivs : List ℚ) (x : ℚ) (starti endi : ℕ) : ℕ :=
  if h : 1 < endi - starti then
    if x > ivs.getD ((endi + starti) / 2) 0 then
      findIntervalLoop ivs x ((endi + starti) / 2) endi
    else findIntervalLoop ivs x starti ((endi + starti) / 2)
  else starti
termination_by endi - starti
decreasing_by
  all_goals omega

/-- `myspline::findInterval`: `-1` when `x` is outside the support,
otherwise the index found by binary search. -/
def findInterval (s : MySpline) (x : ℚ) : ℤ :=
  if s.intervals.length < 2 ∨ x > s.intervals.getLastD 0 ∨ x < s.intervals.headD 0 then
    -1
  else
    (findIntervalLoop s.intervals x 0 (s.intervals.length - 1) : ℤ)

/-- `myspline::operator()`: evaluation.  The loop accumulates
`result += xpot * c; xpot *= dx` over the interval's coefficients. -/
def evalSpline (s : MySpline) (x : ℚ) : ℚ :=
  let index := findInterval s x
  if index < 0 then 0
  else
    let i := index.toNat
    let coeffs := s.coefficients.getD i []
    let dx := x - (s.intervals.getD (i + 1) 0 + s.intervals.getD i 0) / 2
    (coeffs.foldl (fun (p : ℚ × ℚ) c => (p.1 + p.2 * c, p.2 * dx)) (0, 1)).1

/-- `myspline::start`: first grid point of the support, `0` if empty. -/
def splineStart (s : MySpline) : ℚ :=
  s.intervals.headD 0

/-- `myspline::end`: last grid point of the support, `0` if empty. -/
def splineEnd (s : MySpline) : ℚ :=
  s.intervals.getLastD 0

/-- `myspline::checkOverlap`: whether the numeric extents of the two
supports overlap (in an open sense). -/
def checkOverlap (m1 m2 : MySpline) : Bool :=
  if m1.intervals.isEmpty || m2.intervals.isEmpty then false
  else
    !(decide (m2.intervals.getLastD 0 ≤ m1.intervals.headD 0) ||
      decide (m2.intervals.headD 0 ≥ m1.intervals.getLastD 0))

/-- `myspline::isZero`: no intervals, or every coefficient is zero. -/
def isZero (s : MySpline) : Bool :=
  s.intervals.isEmpty || s.coefficients.all (fun cs => cs.all (fun c => c == 0))

/-- `myspline::operator*(const T&)`: scale every coefficient. -/
def scalarMul (s : MySpline) (d : ℚ) : MySpline :=
  ⟨s.order, s.intervals, s.coefficients.map (fun cs => cs.map (fun c => c * d))⟩

/-- `myspline::operator*=(const T&)`: in-place variant of the above. -/
def scalarMulAssign (s : MySpline) (d : ℚ) : MySpline :=
  ⟨s.order, s.intervals, s.coefficients.map (fun cs => cs.map (fun c => c * d))⟩

/-- `myspline::operator/(const T&)`: `(*this) * (1/d)`. -/
def scalarDiv (s : MySpline) (d : ℚ) : MySpline :=
  scalarMul s (1 / d)

/-- `myspline::operator/=(const T&)`: `(*this) *= (1/d)`. -/
def scalarDivAssign (s : MySpline) (d : ℚ) : MySpline :=
  scalarMulAssign s (1 / d)

/-- `std::distance(v.begin(), std::find(v.begin(), v.end(), x))`:
index of the first occurrence, or the length when absent. -/
def firstIndexOf (v : ℚ) : List ℚ → ℕ
  | [] => 0
  | y :: ys => if y = v then 0 else firstIndexOf v ys + 1

/-- One iteration of the interval loop shared by `myspline::operator+`
and `myspline::operator+=`: the coefficient array pushed for the merged
break point `v`.  `thisS` plays the role of `*this`, `argS` of the
argument `a`; `newSize` is the result's array size (`max(order,ordera)+1`
for `operator+`, `order+1` for `operator+=`). -/
def addEntry (newSize : ℕ) (thisS argS : MySpline) (v : ℚ) : List ℚ :=
  if firstIndexOf v thisS.intervals < thisS.coefficients.length ∧
      ¬firstIndexOf v argS.intervals < argS.coefficients.length then
    changearraysize newSize (thisS.coefficients.getD (firstIndexOf v thisS.intervals) [])
  else if firstIndexOf v argS.intervals < argS.coefficients.length ∧
      ¬firstIndexOf v thisS.intervals < thisS.coefficients.length then
    changearraysize newSize (argS.coefficients.getD (firstIndexOf v argS.intervals) [])
  else if firstIndexOf v thisS.intervals < thisS.coefficients.length ∧
      firstIndexOf v argS.intervals < argS.coefficients.length then
    addArr (argS.coefficients.getD (firstIndexOf v argS.intervals) [])
      (thisS.coefficients.getD (firstIndexOf v thisS.intervals) [])
  else make_array newSize 0

/-- `myspline::operator+`: merge the two break-point lists (sorted and
deduplicated), then push one coefficient array per merged interval. -/
def addSpline (thisS argS : MySpline) : MySpline :=
  ⟨max thisS.order argS.order,
    makeuniquesorted (argS.intervals ++ thisS.intervals),
    (List.range ((makeuniquesorted (argS.intervals ++ thisS.intervals)).length - 1)).map
      (fun i => addEntry (max thisS.order argS.order + 1) thisS argS
        ((makeuniquesorted (argS.intervals ++ thisS.intervals)).getD i 0))⟩

/-- `myspline::operator+=` (requires `ordera ≤ order` statically): same
merge, but the coefficient arrays keep the receiver's size. -/
def addAssignSpline (thisS argS : MySpline) : MySpline :=
  ⟨thisS.order,
    makeuniquesorted (argS.intervals ++ thisS.intervals),
    (List.range ((makeuniquesorted (argS.intervals ++ thisS.intervals)).length - 1)).map
      (fun i => addEntry (thisS.order + 1) thisS argS
        ((makeuniquesorted (argS.intervals ++ thisS.intervals)).getD i 0))⟩

/-- `myspline::operator-`: `(*this) + (-1) * a`. -/
def subSpline (thisS argS : MySpline) : MySpline :=
  addSpline thisS (scalarMul argS (-1))

/-- `myspline::operator-=`: `(*this) += (-1) * a`. -/
def subAssignSpline (thisS argS : MySpline) : MySpline :=
  addAssignSpline thisS (scalarMul argS (-1))

/-- `myspline::internal::findOverlappingIntervals`, returning
`(startindex1, startindex2, nintervals)`.  The C++ subtractions are on
`size_t`; under the library's same-grid precondition (asserted in the
source) the subtrahends are small enough that `ℕ` subtraction agrees. -/
def findOverlappingIntervals (m1 m2 : MySpline) : ℕ × ℕ × ℕ :=
  if checkOverlap m1 m2 = false then (0, 0, 0)
  else if m2.intervals.headD 0 ≤ m1.intervals.headD 0 then
    let startindex2 := firstIndexOf (m1.intervals.headD 0) m2.intervals
    (0, startindex2, min (m2.intervals.length - startindex2 - 1) (m1.intervals.length - 1))
  else
    let startindex1 := firstIndexOf (m2.intervals.headD 0) m1.intervals
    (startindex1, 0, min (m2.intervals.length - 1) (m1.intervals.length - startindex1 - 1))

/-- The accumulation `coeffsi[j+k] += thiscoeffs[j] * acoeffs[k]`
(`j ≤ order`, `k ≤ ordera`) of `myspline::operator*`, as the value of
each entry of the result array of size `order + ordera + 1`. -/
def mulCoeffs (p q : ℕ) (tc ac : List ℚ) : List ℚ :=
  (List.range (p + q + 1)).map (fun m =>
    ∑ j ∈ Finset.range (p + 1), ∑ k ∈ Finset.range (q + 1),
      if j + k = m then tc.getD j 0 * ac.getD k 0 else 0)

/-- `myspline::operator*` (spline × spline): convolve coefficient
arrays on the overlapping intervals; result order is the sum. -/
def mulSpline (thisS argS : MySpline) : MySpline :=
  if (findOverlappingIntervals thisS argS).2.2 = 0 then ⟨thisS.order + argS.order, [], []⟩
  else
    ⟨thisS.order + argS.order,
      (List.range ((findOverlappingIntervals thisS argS).2.2 + 1)).map
        (fun i => thisS.intervals.getD ((findOverlappingIntervals thisS argS).1 + i) 0),
      (List.range (findOverlappingIntervals thisS argS).2.2).map
        (fun i =>
          mulCoeffs thisS.order argS.order
            (thisS.coefficients.getD ((findOverlappingIntervals thisS argS).1 + i) [])
            (argS.coefficients.getD ((findOverlappingIntervals thisS argS).2.1 + i) []))⟩

/-- The body of the loop of `myspline::restrictSupport`: keep interval
`i` iff it lies inside `[x0, x1]`; when kept, push its left break point
(and its right break point when the next interval is not kept) and its
coefficient array. -/
def restrictStep (s : MySpline) (x0 x1 : ℚ) (acc : List ℚ × List (List ℚ)) (i : ℕ) :
    List ℚ × List (List ℚ) :=
  if s.intervals.getD i 0 ≥ x0 ∧ s.intervals.getD (i + 1) 0 ≤ x1 then
    (acc.1 ++ (s.intervals.getD i 0 ::
        (if s.intervals.length ≤ i + 2 ∨ s.intervals.getD (i + 2) 0 > x1 then
          [s.intervals.getD (i + 1) 0] else [])),
     acc.2 ++ [s.coefficients.getD i []])
  else acc

/-- `myspline::restrictSupport(x0, x1)`: keep only the intervals fully
inside `[x0, x1]` (partial boundary intervals are dropped entirely). -/
def restrictSupport (s : MySpline) (x0 x1 : ℚ) : MySpline :=
  ⟨s.order,
    ((List.range (s.intervals.length - 1)).foldl (restrictStep s x0 x1) ([], [])).1,
    ((List.range (s.intervals.length - 1)).foldl (restrictStep s x0 x1) ([], [])).2⟩

/-- `myspline::timesx`: multiply by `x`; the new coefficient at `j` is
`old[j-1] + xm * old[j]` with out-of-range terms dropped. -/
def timesx (s : MySpline) : MySpline :=
  ⟨s.order + 1, s.intervals,
    (List.range s.coefficients.length).map (fun i =>
      let xm := (s.intervals.getD (i + 1) 0 + s.intervals.getD i 0) / 2
      let coeffs_old := s.coefficients.getD i []
      (List.range (s.order + 2)).map (fun j =>
        (if 0 < j then coeffs_old.getD (j - 1) 0 else 0) +
        (if j < s.order + 1 then xm * coeffs_old.getD j 0 else 0)))⟩

/-- `myspline::invert`: reflect about `x = 0` (reverse and negate the
break points, flip sign of odd-power coefficients). -/
def invert (s : MySpline) : MySpline :=
  if isZero s then s
  else
    ⟨s.order, s.intervals.reverse.map (fun v => -v),
      (List.range s.coefficients.length).map (fun i =>
        let oldcoeffs := s.coefficients.getD (s.coefficients.length - 1 - i) []
        (List.range (s.order + 1)).map (fun j =>
          (if j % 2 = 0 then (1 : ℚ) else -1) * oldcoeffs.getD j 0))⟩

/-- The `faculty` accumulation of `myspline::dx`: `Π_{j<n} (i - j)`. -/
def faculty (i n : ℕ) : ℕ :=
  (List.range n).foldl (fun acc j => acc * (i - j)) 1

/-- `myspline::orderdx`: order of the `n`-th derivative. -/
def orderdx (orderin n : ℕ) : ℕ :=
  if n > orderin then 0 else orderin - n

/-- `myspline::dx<n>`: the `n`-th derivative.  For `n > order` the
default-constructed (empty) spline of order 0; otherwise coefficient
`c[i]` (with `i ≥ n`) becomes `faculty * c[i]` at position `i - n`. -/
def dxSpline (n : ℕ) (s : MySpline) : MySpline :=
  if n > s.order then ⟨0, [], []⟩
  else
    ⟨s.order - n, s.intervals,
      s.coefficients.map (fun c =>
        (List.range (s.order - n + 1)).map (fun m =>
          (faculty (m + n) n : ℚ) * c.getD (m + n) 0))⟩

/-- `myspline::convert<TO, TI>`: cast break points and coefficients via
the scalar conversion `f` (`static_cast<TO>(TI)` in the source). -/
def convertSpline (f : ℚ → ℚ) (s : MySpline) : MySpline :=
  ⟨s.order, s.intervals.map f, s.coefficients.map (fun c => c.map f)⟩

/-!
The support/grid layer.  A grid (`myspline::internal::grid`, both the
`shared_ptr<const vector<T>>` form of src/include/spline-internal.h and
the class form of src/unnamed/part_002) is modelled by its value, a
list of scalars; the same-pointer shortcut of the C++ comparison is a
pure fast path (two handles to one allocation hold equal values), so
the elementwise comparison below is the whole extensional behaviour.
-/

/-- `support::hasSameGrid` / `grid::operator==`: length check followed
by elementwise comparison. -/
def hasSameGrid (g1 g2 : List ℚ) : Bool :=
  if g1.length ≠ g2.length then false
  else (List.range g1.length).all (fun i => g1.getD i 0 == g2.getD i 0)

/-- `myspline::internal::support<T>`: a grid plus a half-open index
range `[_startIndex, _endIndex)` into it. -/
structure Support where
  grid : List ℚ
  startIndex : ℕ
  endIndex : ℕ
deriving DecidableEq, Repr

/-- `support::size`: number of grid points in the support. -/
def Support.size (s : Support) : ℕ :=
  s.endIndex - s.startIndex

/-- `support::empty`: whether the support holds no grid points. -/
def Support.isEmptySupp (s : Support) : Bool :=
  s.startIndex == s.endIndex

/-- `support::numberOfIntervals`: `size - 1`, or `0` when empty. -/
def Support.numberOfIntervals (s : Support) : ℕ :=
  if s.size = 0 then 0 else s.size - 1

/-- `support::operator==`: same grid, and same index range or both
sides empty. -/
def supportEq (s1 s2 : Support) : Bool :=
  hasSameGrid s1.grid s2.grid &&
    ((s1.startIndex == s2.startIndex && s1.endIndex == s2.endIndex) ||
      (s1.isEmptySupp && s2.isEmptySupp))

/-- `support::calcUnion`: convex hull of the two index ranges; an empty
side is absorbed. -/
def calcUnion (s1 s2 : Support) : Support :=
  if s1.isEmptySupp && s2.isEmptySupp then ⟨s1.grid, 0, 0⟩
  else if s1.isEmptySupp then s2
  else if s2.isEmptySupp then s1
  else ⟨s1.grid, min s1.startIndex s2.startIndex, max s1.endIndex s2.endIndex⟩

/-- `support::calcIntersection`: intersection of the index ranges,
empty when they do not overlap. -/
def calcIntersection (s1 s2 : Support) : Support :=
  let newStartIndex := max s1.startIndex s2.startIndex
  let newEndIndex := min s1.endIndex s2.endIndex
  if newEndIndex ≤ newStartIndex then ⟨s1.grid, 0, 0⟩
  else ⟨s1.grid, newStartIndex, newEndIndex⟩

/-- `support::relativeFromAbsolute`. -/
def relativeFromAbsolute (s : Support) (index : ℕ) : Option ℕ :=
  if s.startIndex ≤ index ∧ index < s.endIndex then some (index - s.startIndex)
  else none

/-- `support::absoluteFromRelative`. -/
def absoluteFromRelative (s : Support) (index : ℕ) : ℕ :=
  index + s.startIndex

/-- `bspline::exceptions::ErrorCode` (values used by the embedded
code). -/
inductive BSplineError
  | differingGrids
  | inconsistentData
  | undetermined
  | indexOutOfRange
deriving DecidableEq, Repr

/-- Data of the support-based `bspline::Spline<T, order>` class (its
header is not under src/; this is the data model of spec §3: a Support
plus one coefficient array per interval). -/
structure Spline2 where
  order : ℕ
  supp : Support
  coefficients : List (List ℚ)
deriving DecidableEq, Repr

/-- The break points of a support-based spline, as the legacy interval
list (the support's slice of its grid). -/
def Spline2.intervalsList (s : Spline2) : List ℚ :=
  (s.supp.grid.drop s.supp.startIndex).take s.supp.size

/-- View a support-based spline as a legacy one (same break points and
coefficients). -/
def toLegacy (s : Spline2) : MySpline :=
  ⟨s.order, s.intervalsList, s.coefficients⟩

/-- Modelled from the spec: `Spline::operator+` of the support-based
`Spline` class is not under src/ (only callers and tests are).  Spec
§4.2 and §7: addition of two splines on inequivalent grids fails fast
with `DifferingGrids`; on a shared grid it combines over the merged
break points (the legacy algebra of src/unnamed/part_003 supplies the
successful case's value). -/
def splineAddE (a b : Spline2) : Except BSplineError MySpline :=
  if hasSameGrid a.supp.grid b.supp.grid then .ok (addSpline (toLegacy a) (toLegacy b))
  else .error .differingGrids

/-- Modelled from the spec: `Spline::operator*` (spline × spline) of
the support-based `Spline` class is not under src/.  Spec §4.2 and §7:
multiplication of two splines on inequivalent grids fails fast with
`DifferingGrids`; on a shared grid it convolves over the overlap (the
legacy algebra of src/unnamed/part_003 supplies the successful case's
value). -/
def splineMulE (a b : Spline2) : Except BSplineError MySpline :=
  if hasSameGrid a.supp.grid b.supp.grid then .ok (mulSpline (toLegacy a) (toLegacy b))
  else .error .differingGrids

/-- `bspline::integration::internal::integrateIntervalAnalytically`
(src/tests/bspline/integration/analytical.h): sum the kernel `f` over
all pairs of coefficient indices of one interval. -/
def integrateIntervalAnalytically (f : ℕ → ℕ → ℚ → ℚ → ℚ → ℚ → ℚ)
    (coeffsa coeffsb : List ℚ) (x0 x1 : ℚ) : ℚ :=
  let dxhalf := (x1 - x0) / 2
  let xm := (x1 + x0) / 2
  ∑ i ∈ Finset.range coeffsa.length, ∑ j ∈ Finset.range coeffsb.length,
    f i j (coeffsa.getD i 0) (coeffsb.getD j 0) dxhalf xm

/-- `bspline::integration::internal::helperAnalyticIntegration`
(src/tests/bspline/integration/analytical.h): throws `DIFFERING_GRIDS`
unless the supports share the grid, then integrates interval by
interval over the intersection of the supports.  The two
`relativeFromAbsolute(...).value()` calls are total here (every
absolute index of the intersection lies in both supports), so they are
modelled by the subtraction they compute. -/
def helperAnalyticIntegration (f : ℕ → ℕ → ℚ → ℚ → ℚ → ℚ → ℚ)
    (m1 m2 : Spline2) : Except BSplineError ℚ :=
  if hasSameGrid m1.supp.grid m2.supp.grid = false then .error .differingGrids
  else
    let integrandSupport := calcIntersection m1.supp m2.supp
    let nintervals := integrandSupport.numberOfIntervals
    .ok (∑ interv ∈ Finset.range nintervals,
      let absIndex := absoluteFromRelative integrandSupport interv
      let m1Index := absIndex - m1.supp.startIndex
      let m2Index := absIndex - m2.supp.startIndex
      integrateIntervalAnalytically f
        (m1.coefficients.getD m1Index []) (m2.coefficients.getD m2Index [])
        (m1.supp.grid.getD (m1.supp.startIndex + m1Index) 0)
        (m1.supp.grid.getD (m1.supp.startIndex + m1Index + 1) 0))

/-- `std::vector::at`: bounds-checked access (throws on overflow;
modelled as `indexOutOfRange`, distinct from `UNDETERMINED`). -/
def knotAt (knots : List ℚ) (i : ℕ) : Except BSplineError ℚ :=
  if h : i < knots.length then .ok knots[i] else .error .indexOutOfRange

/-- `BSplineGenerator::generateBSpline<k>(i)` (src/unnamed/part_004),
error behaviour.  Modelled from the spec where the support-based
`Spline` class is missing from src/: its arithmetic (`+=`, `timesx`,
scalar scaling, `-`) never fails when both operands share one grid
(spec §4.2/§7), and every intermediate spline here lives on the
generator's single grid, so the spline values are elided and the
recursion keeps exactly the source's control flow, knot accesses and
`UNDETERMINED` throw. -/
def generateBSplineE (knots : List ℚ) : ℕ → ℕ → Except BSplineError Unit
  | 0, _ => .ok ()
  | 1, i => do
    let xi ← knotAt knots i
    let xip1 ← knotAt knots (i + 1)
    if xi ≥ xip1 then .error .undetermined else .ok ()
  | (k + 2), i => do
    let xi ← knotAt knots i
    let xipkm1 ← knotAt knots (i + k + 1)
    let _ ← (if xipkm1 > xi then generateBSplineE knots (k + 1) i else .ok ())
    let xip1 ← knotAt knots (i + 1)
    let xipk ← knotAt knots (i + k + 2)
    if xipk > xip1 then generateBSplineE knots (k + 1) (i + 1) else .ok ()

/-- `BSplineGenerator::generateBSplines<k>` (src/unnamed/part_004):
throws `UNDETERMINED` when the knots vector has fewer than `k`
elements, else builds one B-spline per index in `[0, knots.size()-k)`
(the first failing inner call propagates). -/
def generateBSplinesE (knots : List ℚ) (k : ℕ) : Except BSplineError (List Unit) :=
  if knots.length < k then .error .undetermined
  else (List.range (knots.length - k)).mapM (fun i => generateBSplineE knots k i)

/-- Spec-side discrete convolution of coefficient arrays: the claim's
`c[j+k] += a[j]·b[k]` says entry `m` of the product is
`Σ_{j≤m} a[j]·b[m−j]` (indices beyond an array contribute zero). -/
def convAt (a b : List ℚ) (m : ℕ) : ℚ :=
  ∑ j ∈ Finset.range (m + 1), a.getD j 0 * b.getD (m - j) 0

/-- Spec-side falling factorial `i·(i−1)·…·(i−n+1)`. -/
def fallingFactorial (i n : ℕ) : ℕ :=
  ∏ j ∈ Finset.range n, (i - j)

/-- "Defined on the grid `g`": the spline's break-point list is the
contiguous slice of `g` starting at index `a`.  This is the library's
same-grid precondition (all break points come from one global grid, so
they coincide index-for-index wherever two supports overlap). -/
def sliceAt (g : List ℚ) (s : MySpline) (a : ℕ) : Prop :=
  s.intervals = (g.drop a).take s.intervals.length ∧
  a + s.intervals.length ≤ g.length

/-!  Helper lemmas. -/

theorem getD_map_range {α : Type} (d : α) (f : ℕ → α) {n i : ℕ} :
    ((List.range n).map f).getD i d = if i < n then f i else d := by
  by_cases h : i < n
  · rw [List.getD_eq_getElem _ _ (by simpa using h)]
    simp [h]
  · rw [List.getD_eq_default _ _ (by simpa using Nat.le_of_not_lt h)]
    simp [h]

theorem map_getD_range_self {α : Type} (d : α) (l : List α) :
    (List.range l.length).map (fun i => l.getD i d) = l := by
  apply List.ext_getElem
  · simp
  · intro i h1 h2
    simp only [List.getElem_map, List.getElem_range]
    exact List.getD_eq_getElem l d h2

theorem firstIndexOf_of_not_mem {v : ℚ} {l : List ℚ} (h : v ∉ l) :
    firstIndexOf v l = l.length := by
  induction l with
  | nil => rfl
  | cons y ys ih =>
    simp only [List.mem_cons, not_or] at h
    simp [firstIndexOf, Ne.symm h.1, ih h.2]

theorem firstIndexOf_getD {l : List ℚ} (hnd : l.Nodup) {k : ℕ} (hk : k < l.length) :
    firstIndexOf (l.getD k 0) l = k := by
  induction l generalizing k with
  | nil => simp at hk
  | cons y ys ih =>
    rcases List.nodup_cons.mp hnd with ⟨hy, hys⟩
    cases k with
    | zero => simp [firstIndexOf]
    | succ k =>
      have hk' : k < ys.length := by simpa using hk
      have hmem : ys.getD k 0 ∈ ys := by
        rw [List.getD_eq_getElem _ _ hk']; exact List.getElem_mem hk'
      have hne : y ≠ ys.getD k 0 := fun h => hy (h ▸ hmem)
      rw [List.getD_cons_succ]
      show (if y = ys.getD k 0 then 0 else firstIndexOf (ys.getD k 0) ys + 1) = k + 1
      rw [if_neg hne, ih hys hk']

theorem steadily_iff_chain {l : List ℚ} :
    steadilyIncreasingIntervals l = true ↔ l.Chain' (· < ·) := by
  induction l with
  | nil => simp [steadilyIncreasingIntervals]
  | cons a t ih =>
    cases t with
    | nil => simp [steadilyIncreasingIntervals]
    | cons b t' =>
      rw [steadilyIncreasingIntervals, Bool.and_eq_true, decide_eq_true_eq, ih,
        List.chain'_cons]

theorem steadily_iff_sorted {l : List ℚ} :
    steadilyIncreasingIntervals l = true ↔ l.Sorted (· < ·) := by
  rw [steadily_iff_chain, List.chain'_iff_pairwise]; rfl

theorem sorted_lt_of_le_nodup {l : List ℚ} (hs : l.Sorted (· ≤ ·)) (hn : l.Nodup) :
    l.Sorted (· < ·) := by
  induction l with
  | nil => simp
  | cons a t ih =>
    rw [List.sorted_cons] at hs ⊢
    rcases List.nodup_cons.mp hn with ⟨ha, hn'⟩
    refine ⟨fun b hb => lt_of_le_of_ne (hs.1 b hb) (fun h => ha (h ▸ hb)), ih hs.2 hn'⟩

theorem sorted_getD_lt {l : List ℚ} (hs : l.Sorted (· < ·)) {i j : ℕ}
    (hij : i < j) (hj : j < l.length) :
    l.getD i 0 < l.getD j 0 := by
  have hi : i < l.length := lt_trans hij hj
  rw [List.getD_eq_getElem _ _ hi, List.getD_eq_getElem _ _ hj]
  exact hs.rel_get_of_lt (by simpa using hij)

theorem sorted_getD_le {l : List ℚ} (hs : l.Sorted (· < ·)) {i j : ℕ}
    (hij : i ≤ j) (hj : j < l.length) :
    l.getD i 0 ≤ l.getD j 0 := by
  rcases lt_or_eq_of_le hij with h | rfl
  · exact le_of_lt (sorted_getD_lt hs h hj)
  · exact le_refl _

theorem sorted_getD_index_le {l : List ℚ} (hs : l.Sorted (· < ·)) {i j : ℕ}
    (hle : l.getD i 0 ≤ l.getD j 0) (hi : i < l.length) :
    i ≤ j := by
  by_contra h
  exact absurd hle (not_le.mpr (sorted_getD_lt hs (Nat.lt_of_not_le h) hi))

theorem makeuniquesorted_sorted (l : List ℚ) :
    (makeuniquesorted l).Sorted (· < ·) := by
  have hle : (l.insertionSort (· ≤ ·)).Sorted (· ≤ ·) := List.sorted_insertionSort _ l
  exact sorted_lt_of_le_nodup
    (List.Pairwise.sublist (List.dedup_sublist _) hle) (List.nodup_dedup _)

theorem mem_makeuniquesorted {v : ℚ} {l : List ℚ} :
    v ∈ makeuniquesorted l ↔ v ∈ l := by
  rw [makeuniquesorted, List.mem_dedup]
  exact (List.perm_insertionSort _ l).mem_iff

theorem makeuniquesorted_eq_of_sorted {l : List ℚ} (hs : l.Sorted (· < ·)) :
    makeuniquesorted l = l := by
  have hle : l.Sorted (· ≤ ·) := hs.imp le_of_lt
  rw [makeuniquesorted, List.Sorted.insertionSort_eq hle,
    List.Nodup.dedup (hs.nodup)]

theorem sorted_eq_of_mem_iff {l1 l2 : List ℚ} (h1 : l1.Sorted (· < ·))
    (h2 : l2.Sorted (· < ·)) (hm : ∀ v, v ∈ l1 ↔ v ∈ l2) : l1 = l2 := by
  have hperm : List.Perm l1 l2 := (List.perm_ext_iff_of_nodup h1.nodup h2.nodup).mpr hm
  exact List.eq_of_perm_of_sorted hperm (h1.imp le_of_lt) (h2.imp le_of_lt)

theorem makeuniquesorted_append_of_subset {l e : List ℚ} (hs : l.Sorted (· < ·))
    (hsub : ∀ v ∈ e, v ∈ l) : makeuniquesorted (e ++ l) = l := by
  refine sorted_eq_of_mem_iff (makeuniquesorted_sorted _) hs (fun v => ?_)
  rw [mem_makeuniquesorted, List.mem_append]
  exact ⟨fun h => h.elim (hsub v) id, Or.inr⟩

theorem hasSameGrid_iff {g1 g2 : List ℚ} : hasSameGrid g1 g2 = true ↔ g1 = g2 := by
  rw [hasSameGrid]
  by_cases h : g1.length ≠ g2.length
  · rw [if_pos h]
    exact ⟨fun hf => absurd hf (by simp), fun he => absurd (congrArg List.length he) h⟩
  · rw [if_neg h]
    push_neg at h
    rw [List.all_eq_true]
    constructor
    · intro hall
      refine List.ext_getElem h (fun i h1 h2 => ?_)
      have hi := hall i (List.mem_range.mpr h1)
      rw [beq_iff_eq, List.getD_eq_getElem _ _ h1, List.getD_eq_getElem _ _ h2] at hi
      exact hi
    · rintro rfl i _
      simp

theorem faculty_eq_fallingFactorial (i n : ℕ) : faculty i n = fallingFactorial i n := by
  induction n with
  | zero => rfl
  | succ n ih =>
    rw [faculty, List.range_succ, List.foldl_append, fallingFactorial,
      Finset.prod_range_succ, ← fallingFactorial, ← ih, faculty]
    simp

theorem knotAt_eq_ok {knots : List ℚ} {i : ℕ} (h : i < knots.length) :
    knotAt knots i = .ok (knots.getD i 0) := by
  rw [knotAt, dif_pos h, List.getD_eq_getElem _ _ h]

theorem generateBSplineE_one_ok {knots : List ℚ} {j : ℕ} (hj : j + 1 < knots.length)
    (hlt : knots.getD j 0 < knots.getD (j + 1) 0) :
    generateBSplineE knots 1 j = .ok () := by
  rw [generateBSplineE, knotAt_eq_ok (show j < knots.length by omega), knotAt_eq_ok hj]
  simp only [bind, Except.bind]
  rw [if_neg (not_le.mpr hlt)]

theorem generateBSplineE_ok_big {knots : List ℚ} :
    ∀ k i, i + (k + 2) < knots.length → generateBSplineE knots (k + 2) i = .ok () := by
  intro k
  induction k with
  | zero =>
    intro i hi
    rw [generateBSplineE, knotAt_eq_ok (show i < knots.length by omega),
      knotAt_eq_ok (show i + 0 + 1 < knots.length by omega),
      knotAt_eq_ok (show i + 0 + 2 < knots.length by omega)]
    simp only [bind, Except.bind]
    have e1 : i + 0 + 1 = i + 1 := rfl
    have e2 : i + 0 + 2 = i + 2 := rfl
    rw [e1, e2]
    by_cases hb1 : knots.getD (i + 1) 0 > knots.getD i 0
    · rw [if_pos hb1, generateBSplineE_one_ok (show i + 1 < knots.length by omega) hb1]
      by_cases hb2 : knots.getD (i + 2) 0 > knots.getD (i + 1) 0
      · have hb2' : knots.getD (i + 1) 0 < knots.getD (i + 1 + 1) 0 := hb2
        rw [if_pos hb2, generateBSplineE_one_ok (show i + 1 + 1 < knots.length by omega) hb2']
      · rw [if_neg hb2]
    · rw [if_neg hb1]
      by_cases hb2 : knots.getD (i + 2) 0 > knots.getD (i + 1) 0
      · have hb2' : knots.getD (i + 1) 0 < knots.getD (i + 1 + 1) 0 := hb2
        rw [if_pos hb2, generateBSplineE_one_ok (show i + 1 + 1 < knots.length by omega) hb2']
      · rw [if_neg hb2]
  | succ k ih =>
    intro i hi
    have ihi : generateBSplineE knots (k + 1 + 1) i = .ok () := ih i (by omega)
    have ihi1 : generateBSplineE knots (k + 1 + 1) (i + 1) = .ok () := ih (i + 1) (by omega)
    rw [generateBSplineE, knotAt_eq_ok (show i < knots.length by omega),
      knotAt_eq_ok (show i + (k + 1) + 1 < knots.length by omega),
      knotAt_eq_ok (show i + 1 < knots.length by omega),
      knotAt_eq_ok (show i + (k + 1) + 2 < knots.length by omega)]
    simp only [bind, Except.bind]
    by_cases hb1 : knots.getD (i + (k + 1) + 1) 0 > knots.getD i 0
    · rw [if_pos hb1, ihi]
      by_cases hb2 : knots.getD (i + (k + 1) + 2) 0 > knots.getD (i + 1) 0
      · rw [if_pos hb2, ihi1]
      · rw [if_neg hb2]
    · rw [if_neg hb1]
      by_cases hb2 : knots.getD (i + (k + 1) + 2) 0 > knots.getD (i + 1) 0
      · rw [if_pos hb2, ihi1]
      · rw [if_neg hb2]

theorem mapM_ok_of_all_ok (l : List ℕ) (f : ℕ → Except BSplineError Unit)
    (h : ∀ x ∈ l, f x = .ok ()) : l.mapM f = .ok (List.replicate l.length ()) := by
  induction l with
  | nil => rfl
  | cons a t ih =>
    rw [List.mapM_cons, h a (List.mem_cons_self a t), ih (fun x hx => h x (List.mem_cons_of_mem a hx))]
    rfl

/-!  Claim theorems. -/

/-- C10: scalar multiplication and division (value-returning and
in-place forms) leave the break-point sequence and the order unchanged
and only scale the coefficient values. -/
theorem claim10_scalar_ops_frame (s : MySpline) (d : ℚ) :
    (scalarMul s d).intervals = s.intervals ∧ (scalarMul s d).order = s.order ∧
    (scalarMul s d).coefficients = s.coefficients.map (fun cs => cs.map (fun c => c * d)) ∧
    (scalarMulAssign s d).intervals = s.intervals ∧ (scalarMulAssign s d).order = s.order ∧
    (scalarMulAssign s d).coefficients = s.coefficients.map (fun cs => cs.map (fun c => c * d)) ∧
    (scalarDiv s d).intervals = s.intervals ∧ (scalarDiv s d).order = s.order ∧
    (scalarDiv s d).coefficients = s.coefficients.map (fun cs => cs.map (fun c => c * (1 / d))) ∧
    (scalarDivAssign s d).intervals = s.intervals ∧ (scalarDivAssign s d).order = s.order ∧
    (scalarDivAssign s d).coefficients = s.coefficients.map (fun cs => cs.map (fun c => c * (1 / d))) :=
  ⟨rfl, rfl, rfl, rfl, rfl, rfl, rfl, rfl, rfl, rfl, rfl, rfl⟩

/-- C3: evaluation at a point strictly below the first break point,
strictly above the last one, or on an empty support, returns exactly 0
(no failure; `findInterval` reports `-1` and the evaluator returns 0). -/
theorem claim3_eval_outside_support (s : MySpline) (x : ℚ) :
    (s.intervals = [] → evalSpline s x = 0) ∧
    (x < s.intervals.headD 0 → evalSpline s x = 0) ∧
    (x > s.intervals.getLastD 0 → evalSpline s x = 0) := by
  have key : (s.intervals.length < 2 ∨ x > s.intervals.getLastD 0 ∨ x < s.intervals.headD 0) →
      evalSpline s x = 0 := by
    intro h
    rw [evalSpline]
    simp only [findInterval, if_pos h]
    norm_num
  exact ⟨fun h => key (Or.inl (by simp [h])), fun h => key (Or.inr (Or.inr h)),
    fun h => key (Or.inr (Or.inl h))⟩

theorem claim3_witness :
    evalSpline ⟨0, [0, 1], [[1]]⟩ (-1) = 0 ∧ evalSpline ⟨0, [], []⟩ 5 = 0 ∧
    evalSpline ⟨0, [0, 1], [[1]]⟩ 2 = 0 :=
  ⟨(claim3_eval_outside_support _ _).2.1 (by decide),
   (claim3_eval_outside_support _ _).1 rfl,
   (claim3_eval_outside_support _ _).2.2 (by decide)⟩

/-- C6 counterexample: two empty supports on different (non-equal)
grids do NOT compare equal — `support::operator==` conjoins
`hasSameGrid` with the whole remainder, so the both-empty escape only
applies on one and the same grid. -/
theorem claim6_counterexample :
    Support.isEmptySupp ⟨[0], 0, 0⟩ = true ∧ Support.isEmptySupp ⟨[1], 0, 0⟩ = true ∧
    (⟨[0], 0, 0⟩ : Support).grid ≠ (⟨[1], 0, 0⟩ : Support).grid ∧
    supportEq ⟨[0], 0, 0⟩ ⟨[1], 0, 0⟩ = false := by
  refine ⟨rfl, rfl, by decide, by decide⟩

/-- C6 (amended): two supports are equal exactly when they have the
same logical grid AND (identical index ranges OR both empty); two
empty supports on the same grid compare equal regardless of position,
but empty supports on different grids compare unequal.  The index
bounds are the constructor's assertion. -/
theorem claim6_support_eq (s1 s2 : Support) (h1 : s1.startIndex ≤ s1.endIndex)
    (h2 : s2.startIndex ≤ s2.endIndex) :
    supportEq s1 s2 = true ↔
      (s1.grid = s2.grid ∧
        ((s1.startIndex = s2.startIndex ∧ s1.endIndex = s2.endIndex) ∨
          (s1.size = 0 ∧ s2.size = 0))) := by
  rw [supportEq, Bool.and_eq_true, Bool.or_eq_true, Bool.and_eq_true, Bool.and_eq_true,
    hasSameGrid_iff]
  simp only [beq_iff_eq, Support.isEmptySupp, Support.size]
  constructor
  · rintro ⟨hg, hrest⟩
    exact ⟨hg, hrest.imp id (fun ⟨e1, e2⟩ => ⟨by omega, by omega⟩)⟩
  · rintro ⟨hg, hrest⟩
    exact ⟨hg, hrest.imp id (fun ⟨e1, e2⟩ => ⟨by omega, by omega⟩)⟩

theorem claim6_witness :
    supportEq ⟨[0, 1, 2], 0, 0⟩ ⟨[0, 1, 2], 2, 2⟩ = true ∧
    supportEq ⟨[0, 1, 2], 0, 2⟩ ⟨[0, 1, 2], 0, 3⟩ = false := by
  constructor
  · exact (claim6_support_eq ⟨[0, 1, 2], 0, 0⟩ ⟨[0, 1, 2], 2, 2⟩ (by decide) (by decide)).mpr
      ⟨rfl, Or.inr ⟨rfl, rfl⟩⟩
  · have h := claim6_support_eq ⟨[0, 1, 2], 0, 2⟩ ⟨[0, 1, 2], 0, 3⟩ (by decide) (by decide)
    rw [← Bool.not_eq_true, h]
    decide

/-- C1: combining two splines built over distinct (non-equal) grids
always fails with `DifferingGrids` — for addition and multiplication
(modelled from the spec, the support-based `Spline` class being absent
from src/) and for the analytical integration of
src/tests/bspline/integration/analytical.h — and never silently
combines the operands. -/
theorem claim1_differing_grids (a b : Spline2) (h : a.supp.grid ≠ b.supp.grid) :
    splineAddE a b = .error .differingGrids ∧
    splineMulE a b = .error .differingGrids ∧
    ∀ f, helperAnalyticIntegration f a b = .error .differingGrids := by
  have hg : hasSameGrid a.supp.grid b.supp.grid = false := by
    rw [← Bool.not_eq_true, hasSameGrid_iff]
    exact h
  refine ⟨?_, ?_, fun f => ?_⟩
  · rw [splineAddE, if_neg (by rw [hg]; exact Bool.false_ne_true)]
  · rw [splineMulE, if_neg (by rw [hg]; exact Bool.false_ne_true)]
  · rw [helperAnalyticIntegration, if_pos hg]

theorem claim1_witness :
    splineAddE ⟨0, ⟨[0, 1, 2], 0, 3⟩, [[1], [1]]⟩ ⟨0, ⟨[0, 2], 0, 2⟩, [[1]]⟩ =
      .error .differingGrids ∧
    splineMulE ⟨0, ⟨[0, 1, 2], 0, 3⟩, [[1], [1]]⟩ ⟨0, ⟨[0, 2], 0, 2⟩, [[1]]⟩ =
      .error .differingGrids ∧
    helperAnalyticIntegration (fun _ _ ca cb _ _ => ca * cb)
      ⟨0, ⟨[0, 1, 2], 0, 3⟩, [[1], [1]]⟩ ⟨0, ⟨[0, 2], 0, 2⟩, [[1]]⟩ =
      .error .differingGrids := by
  have h := claim1_differing_grids ⟨0, ⟨[0, 1, 2], 0, 3⟩, [[1], [1]]⟩
    ⟨0, ⟨[0, 2], 0, 2⟩, [[1]]⟩ (by decide)
  exact ⟨h.1, h.2.1, h.2.2 _⟩

/-- C5: differentiation.  For `n > order` the result is the zero
spline of order 0; otherwise the order drops by `n`, the break points
are unchanged, and coefficient `c[i]` (`i ≥ n`) lands at position
`i−n` scaled by the falling factorial `i·(i−1)·…·(i−n+1)`. -/
theorem claim5_differentiate (s : MySpline) (n : ℕ) :
    (n > s.order → dxSpline n s = ⟨0, [], []⟩ ∧ isZero (dxSpline n s) = true ∧
      (dxSpline n s).order = 0) ∧
    (n ≤ s.order →
      (dxSpline n s).order = s.order - n ∧
      (dxSpline n s).intervals = s.intervals ∧
      (dxSpline n s).coefficients.length = s.coefficients.length ∧
      ∀ ci < s.coefficients.length, ∀ i, n ≤ i → i ≤ s.order →
        ((dxSpline n s).coefficients.getD ci []).getD (i - n) 0 =
          (fallingFactorial i n : ℚ) * (s.coefficients.getD ci []).getD i 0) := by
  constructor
  · intro hgt
    rw [dxSpline, if_pos hgt]
    exact ⟨rfl, rfl, rfl⟩
  · intro hle
    rw [dxSpline, if_neg (not_lt.mpr hle)]
    refine ⟨rfl, rfl, by simp, fun ci hci i hni hip => ?_⟩
    have hmap : (s.coefficients.map (fun c =>
        (List.range (s.order - n + 1)).map (fun m =>
          (faculty (m + n) n : ℚ) * c.getD (m + n) 0))).getD ci [] =
        (List.range (s.order - n + 1)).map (fun m =>
          (faculty (m + n) n : ℚ) * (s.coefficients.getD ci []).getD (m + n) 0) := by
      rw [List.getD_eq_getElem _ _ (by simpa using hci), List.getElem_map,
        List.getD_eq_getElem _ _ hci]
    simp only [hmap]
    rw [getD_map_range, if_pos (by omega)]
    rw [show i - n + n = i by omega, faculty_eq_fallingFactorial]

theorem claim5_witness :
    ((dxSpline 1 ⟨2, [0, 1], [[3, 4, 5]]⟩).coefficients.getD 0 []).getD (1 - 1) 0 =
      (fallingFactorial 1 1 : ℚ) *
        ((⟨2, [0, 1], [[3, 4, 5]]⟩ : MySpline).coefficients.getD 0 []).getD 1 0 ∧
    dxSpline 3 ⟨2, [0, 1], [[3, 4, 5]]⟩ = ⟨0, [], []⟩ :=
  ⟨((claim5_differentiate ⟨2, [0, 1], [[3, 4, 5]]⟩ 1).2 (by decide)).2.2.2 0 (by decide) 1
      (by decide) (by decide),
   ((claim5_differentiate ⟨2, [0, 1], [[3, 4, 5]]⟩ 3).1 (by decide)).1⟩

/-- C7 counterexample: with the knot sequence `[0, 0]` and `k = 1` the
generator fails with `Undetermined` although the knot sequence has
`2 ≥ k` elements (the degenerate zero-width base interval throws), so
"fails exactly when the knot sequence has fewer than `k` elements" is
false. -/
theorem claim7_counterexample :
    1 ≤ ([0, 0] : List ℚ).length ∧
    generateBSplinesE [0, 0] 1 = .error .undetermined := by
  constructor
  · decide
  · rfl

/-- C7 (amended): `generateBSplines<k>` fails with `Undetermined`
whenever the knot sequence has fewer than `k` elements; conversely,
when it has at least `k` elements it produces exactly `knotCount − k`
B-splines (of order `k−1`, the template parameter), provided `k ≥ 2`
or (for `k = 1`) the adjacent knots strictly increase — for `k = 1` a
repeated knot makes the base case throw `Undetermined` as well. -/
theorem claim7_generate_all (knots : List ℚ) (k : ℕ) (hk : 1 ≤ k) :
    (knots.length < k → generateBSplinesE knots k = .error .undetermined) ∧
    (k ≤ knots.length →
      (2 ≤ k ∨ ∀ j, j + 1 < knots.length → knots.getD j 0 < knots.getD (j + 1) 0) →
      generateBSplinesE knots k = .ok (List.replicate (knots.length - k) ())) := by
  constructor
  · intro hlt
    rw [generateBSplinesE, if_pos hlt]
  · intro hge hside
    rw [generateBSplinesE, if_neg (not_lt.mpr hge)]
    rw [mapM_ok_of_all_ok _ _ ?_, List.length_range]
    intro i hi
    rw [List.mem_range] at hi
    rcases Nat.lt_or_ge k 2 with hklt | hkge
    · have hk1 : k = 1 := by omega
      subst hk1
      rcases hside with h2 | hinc
      · omega
      · exact generateBSplineE_one_ok (by omega) (hinc i (by omega))
    · obtain ⟨k', rfl⟩ : ∃ k', k = k' + 2 := ⟨k - 2, by omega⟩
      exact generateBSplineE_ok_big k' i (by omega)

theorem claim7_witness :
    generateBSplinesE [0, 1] 3 = .error .undetermined ∧
    generateBSplinesE [0, 0, 1, 1] 2 = .ok (List.replicate 2 ()) ∧
    generateBSplinesE [0, 1, 2] 1 = .ok (List.replicate 2 ()) := by
  refine ⟨(claim7_generate_all [0, 1] 3 (by decide)).1 (by decide), ?_, ?_⟩
  · have h := (claim7_generate_all [0, 0, 1, 1] 2 (by decide)).2 (by decide) (Or.inl (by decide))
    simpa using h
  · have h := (claim7_generate_all [0, 1, 2] 1 (by decide)).2 (by decide)
      (Or.inr (by
        intro j hj
        have hb : j = 0 ∨ j = 1 := by simp at hj; omega
        rcases hb with rfl | rfl <;> decide))
    simpa using h

theorem headD_eq_getD (l : List ℚ) : l.headD 0 = l.getD 0 0 := by
  cases l <;> rfl

theorem getLastD_eq_getD (l : List ℚ) (hne : l ≠ []) (d : ℚ) :
    l.getLastD d = l.getD (l.length - 1) 0 := by
  induction l generalizing d with
  | nil => exact absurd rfl hne
  | cons a t ih =>
    cases t with
    | nil => rfl
    | cons b t' =>
      rw [List.getLastD_cons, ih (List.cons_ne_nil b t') a]
      simp only [List.length_cons, Nat.add_sub_cancel]
      rw [List.getD_cons_succ]

theorem findIntervalLoop_spec (ivs : List ℚ) (x : ℚ) :
    ∀ n starti endi, endi - starti ≤ n → starti < endi →
      ivs.getD starti 0 < x → x ≤ ivs.getD endi 0 →
      starti ≤ findIntervalLoop ivs x starti endi ∧
      findIntervalLoop ivs x starti endi + 1 ≤ endi ∧
      ivs.getD (findIntervalLoop ivs x starti endi) 0 < x ∧
      x ≤ ivs.getD (findIntervalLoop ivs x starti endi + 1) 0 := by
  intro n
  induction n with
  | zero => intro starti endi h1 h2 _ _; omega
  | succ n ih =>
    intro starti endi hn hlt hx1 hx2
    by_cases hgap : 1 < endi - starti
    · by_cases hcmp : x > ivs.getD ((endi + starti) / 2) 0
      · have hstep : findIntervalLoop ivs x starti endi =
            findIntervalLoop ivs x ((endi + starti) / 2) endi := by
          rw [findIntervalLoop, dif_pos hgap, if_pos hcmp]
        rw [hstep]
        obtain ⟨pa, pb, pc, pd⟩ := ih _ _ (by omega) (by omega) hcmp hx2
        exact ⟨by omega, pb, pc, pd⟩
      · have hstep : findIntervalLoop ivs x starti endi =
            findIntervalLoop ivs x starti ((endi + starti) / 2) := by
          rw [findIntervalLoop, dif_pos hgap, if_neg hcmp]
        rw [hstep]
        obtain ⟨pa, pb, pc, pd⟩ := ih _ _ (by omega) (by omega) hx1 (not_lt.mp hcmp)
        exact ⟨pa, by omega, pc, pd⟩
    · have hstep : findIntervalLoop ivs x starti endi = starti := by
        rw [findIntervalLoop, dif_neg hgap]
      rw [hstep]
      have he : endi = starti + 1 := by omega
      exact ⟨le_refl _, by omega, hx1, by rw [← he]; exact hx2⟩

/-- C4 counterexample: on the order-0 spline with break points
`[0, 1, 2]` and interval values `1` and `2`, evaluation at the interior
break point `x = 1` (index `m = 1`) uses the coefficient vector of
interval `0`, i.e. yields `1`, not interval `1`'s value `2` — the
search's tie-break (`if (x > _intervals[middlei])`) sends an exact hit
to the interval on its LEFT. -/
theorem claim4_counterexample :
    (⟨0, [0, 1, 2], [[1], [2]]⟩ : MySpline).intervals.getD 1 0 = 1 ∧
    findInterval ⟨0, [0, 1, 2], [[1], [2]]⟩ 1 = 0 ∧
    evalSpline ⟨0, [0, 1, 2], [[1], [2]]⟩ 1 = 1 ∧
    evalSpline ⟨0, [0, 1, 2], [[1], [2]]⟩ 1 ≠ 2 := by
  have hloop : findIntervalLoop [0, 1, 2] 1 0 2 = 0 := by
    rw [findIntervalLoop, dif_pos (by decide), if_neg (by decide),
      findIntervalLoop, dif_neg (by decide)]
  have hfi : findInterval ⟨0, [0, 1, 2], [[1], [2]]⟩ 1 = 0 := by
    rw [findInterval, if_neg (by norm_num)]
    simp [hloop]
  refine ⟨rfl, hfi, ?_, ?_⟩
  · rw [evalSpline]
    norm_num [hfi, evalSpline]
  · rw [evalSpline]
    norm_num [hfi, evalSpline]

/-- C4 (amended): for `x` in the half-open support range
`(front, back]`, the binary search of `findInterval` selects the
unique interval index `r` with `ivs[r] < x ≤ ivs[r+1]` — intervals are
closed on the RIGHT break point (the first interval additionally
contains `front`).  In particular, for `x` exactly equal to an
interior break point at index `m`, evaluation uses the coefficient
vector of interval `m − 1`, not of interval `m`. -/
theorem claim4_find_interval (s : MySpline) (x : ℚ)
    (hs : s.intervals.Sorted (· < ·)) (hL : 2 ≤ s.intervals.length)
    (hfront : s.intervals.headD 0 < x) (hback : x ≤ s.intervals.getLastD 0) :
    ∃ r : ℕ, findInterval s x = (r : ℤ) ∧ r + 1 ≤ s.intervals.length - 1 ∧
      s.intervals.getD r 0 < x ∧ x ≤ s.intervals.getD (r + 1) 0 ∧
      ∀ m, 0 < m → m < s.intervals.length → x = s.intervals.getD m 0 → r = m - 1 := by
  have hnotout : ¬(s.intervals.length < 2 ∨ x > s.intervals.getLastD 0 ∨
      x < s.intervals.headD 0) := by
    push_neg
    exact ⟨hL, not_lt.mp (not_lt.mpr hback), le_of_lt hfront⟩
  have hx1 : s.intervals.getD 0 0 < x := by rwa [headD_eq_getD] at hfront
  have hx2 : x ≤ s.intervals.getD (s.intervals.length - 1) 0 := by
    rwa [getLastD_eq_getD _ (List.length_pos.mp (by omega)) 0] at hback
  obtain ⟨ha, hb, hc, hd⟩ := findIntervalLoop_spec s.intervals x
    (s.intervals.length - 1) 0 (s.intervals.length - 1) (by omega) (by omega) hx1 hx2
  refine ⟨findIntervalLoop s.intervals x 0 (s.intervals.length - 1), ?_, hb, hc, hd, ?_⟩
  · rw [findInterval, if_neg hnotout]
  · intro m hm0 hmL hxm
    set r := findIntervalLoop s.intervals x 0 (s.intervals.length - 1) with hrdef
    have hrm : r < m := by
      by_contra hge
      have := sorted_getD_le hs (not_lt.mp hge) (by omega)
      rw [← hxm] at this
      exact absurd hc (not_lt.mpr this)
    have hmr : m ≤ r + 1 := by
      refine sorted_getD_index_le hs ?_ hmL
      rw [← hxm]
      exact hd
    omega

theorem claim4_witness :
    findInterval ⟨0, [0, 1, 2], [[1], [2]]⟩ 1 = ((1 - 1 : ℕ) : ℤ) := by
  obtain ⟨r, hr, hle, hlt, hge, huniq⟩ := claim4_find_interval
    ⟨0, [0, 1, 2], [[1], [2]]⟩ 1 (by decide) (by decide) (by decide) (by decide)
  rw [hr, huniq 1 (by decide) (by decide) (by decide)]

theorem getD_map_of_lt {α β : Type} (f : α → β) (l : List α) {i : ℕ}
    (hi : i < l.length) (d : β) (e : α) : (l.map f).getD i d = f (l.getD i e) := by
  rw [List.getD_eq_getElem _ _ (by simpa using hi), List.getElem_map,
    List.getD_eq_getElem _ _ hi]

theorem getD_map_mul_zero (c : List ℚ) (d : ℚ) (j : ℕ) :
    (c.map (fun t => t * d)).getD j 0 = c.getD j 0 * d := by
  by_cases hj : j < c.length
  · exact getD_map_of_lt _ _ hj 0 0
  · rw [List.getD_eq_default _ _ (by simpa using Nat.le_of_not_lt hj),
      List.getD_eq_default _ _ (Nat.le_of_not_lt hj), zero_mul]

theorem changearraysize_self {l : List ℚ} {n : ℕ} (h : l.length = n) :
    changearraysize n l = l := by
  subst h
  exact map_getD_range_self 0 l

theorem getD_mem_of_lt {α : Type} (l : List α) {i : ℕ} (hi : i < l.length) (d : α) :
    l.getD i d ∈ l := by
  rw [List.getD_eq_getElem _ _ hi]
  exact List.getElem_mem hi

theorem makeuniquesorted_congr_perm {l1 l2 : List ℚ} (h : List.Perm l1 l2) :
    makeuniquesorted l1 = makeuniquesorted l2 := by
  rw [makeuniquesorted, makeuniquesorted]
  have hp : List.Perm (l1.insertionSort (· ≤ ·)) (l2.insertionSort (· ≤ ·)) :=
    ((List.perm_insertionSort _ l1).trans h).trans (List.perm_insertionSort _ l2).symm
  rw [List.eq_of_perm_of_sorted hp (List.sorted_insertionSort _ l1)
    (List.sorted_insertionSort _ l2)]

theorem addArr_comm (x y : List ℚ) : addArr x y = addArr y x := by
  rw [addArr, addArr, Nat.max_comm]
  exact List.map_congr_left (fun i _ => add_comm _ _)

theorem addEntry_comm (n : ℕ) (a b : MySpline) (v : ℚ) :
    addEntry n a b v = addEntry n b a v := by
  rw [addEntry, addEntry]
  by_cases te : firstIndexOf v a.intervals < a.coefficients.length <;>
    by_cases ae : firstIndexOf v b.intervals < b.coefficients.length
  · rw [if_neg (by tauto), if_neg (by tauto), if_pos ⟨te, ae⟩,
      if_neg (by tauto), if_neg (by tauto), if_pos ⟨ae, te⟩, addArr_comm]
  · rw [if_pos ⟨te, ae⟩, if_neg (by tauto), if_pos ⟨te, ae⟩]
  · rw [if_neg (by tauto), if_pos ⟨ae, te⟩, if_pos ⟨ae, te⟩]
  · rw [if_neg (by tauto), if_neg (by tauto), if_neg (by tauto),
      if_neg (by tauto), if_neg (by tauto), if_neg (by tauto)]

theorem addSpline_comm (a b : MySpline) : addSpline a b = addSpline b a := by
  rw [addSpline, addSpline, MySpline.mk.injEq]
  have hM : makeuniquesorted (b.intervals ++ a.intervals) =
      makeuniquesorted (a.intervals ++ b.intervals) :=
    makeuniquesorted_congr_perm List.perm_append_comm
  refine ⟨Nat.max_comm _ _, hM, ?_⟩
  rw [hM, Nat.max_comm a.order b.order]
  exact List.map_congr_left (fun i _ => addEntry_comm _ a b _)

theorem addSpline_zero {a b : MySpline} (hva : validSpline a) (hbi : b.intervals = [])
    (hbc : b.coefficients = []) (hord : b.order ≤ a.order) : addSpline a b = a := by
  obtain ⟨o, ivs, cfs⟩ := a
  obtain ⟨hsorted, hcount, hlen⟩ := hva
  rw [steadily_iff_sorted] at hsorted
  dsimp only at hsorted hcount hlen hord ⊢
  have hM : makeuniquesorted (b.intervals ++ ivs) = ivs := by
    rw [hbi, List.nil_append, makeuniquesorted_eq_of_sorted hsorted]
  rw [addSpline, MySpline.mk.injEq]
  dsimp only
  rw [hM, Nat.max_eq_left hord]
  refine ⟨rfl, rfl, ?_⟩
  rcases hcount with ⟨hie, hce⟩ | ⟨hl2, hcl⟩
  · rw [hie, hce]
    rfl
  · have hrange : ivs.length - 1 = cfs.length := by omega
    rw [hrange]
    have hentry : ∀ i ∈ List.range cfs.length,
        addEntry (o + 1) ⟨o, ivs, cfs⟩ b (ivs.getD i 0) = cfs.getD i [] := by
      intro i hi
      rw [List.mem_range] at hi
      have hfi : firstIndexOf (ivs.getD i 0) ivs = i :=
        firstIndexOf_getD hsorted.nodup (by omega)
      have hfa : firstIndexOf (ivs.getD i 0) b.intervals = 0 := by
        rw [hbi]; rfl
      rw [addEntry]
      dsimp only
      rw [hfi, hfa, hbc,
        if_pos (And.intro hi (by simp : ¬0 < ([] : List (List ℚ)).length))]
      exact changearraysize_self (hlen _ (getD_mem_of_lt _ (by omega) _))
    rw [List.map_congr_left hentry, map_getD_range_self [] cfs]

theorem addSpline_neg_self {a : MySpline} (hva : validSpline a) :
    (addSpline a (scalarMul a (-1))).intervals = a.intervals ∧
    isZero (addSpline a (scalarMul a (-1))) = true := by
  obtain ⟨hsorted, hcount, hlen⟩ := hva
  rw [steadily_iff_sorted] at hsorted
  have hM : makeuniquesorted ((scalarMul a (-1)).intervals ++ a.intervals) = a.intervals :=
    makeuniquesorted_append_of_subset hsorted (fun v hv => hv)
  constructor
  · rw [addSpline]
    exact hM
  · rw [isZero, Bool.or_eq_true, List.all_eq_true]
    refine Or.inr (fun cs hcs => ?_)
    rw [addSpline, hM] at hcs
    simp only [List.mem_map, List.mem_range] at hcs
    obtain ⟨i, hi, rfl⟩ := hcs
    rcases hcount with ⟨hie, _⟩ | ⟨hl2, hcl⟩
    · rw [hie] at hi
      simp at hi
    · have hfi : firstIndexOf (a.intervals.getD i 0) a.intervals = i :=
        firstIndexOf_getD hsorted.nodup (by omega)

      have hte : firstIndexOf (a.intervals.getD i 0) a.intervals < a.coefficients.length := by
        rw [hfi]; omega
      have hae : firstIndexOf (a.intervals.getD i 0) (scalarMul a (-1)).intervals <
          (scalarMul a (-1)).coefficients.length := by
        show firstIndexOf (a.intervals.getD i 0) a.intervals <
          (a.coefficients.map _).length
        rw [hfi, List.length_map]; omega
      rw [addEntry, if_neg (by tauto), if_neg (by tauto), if_pos ⟨hte, hae⟩]
      rw [List.all_eq_true]
      intro t ht
      rw [addArr] at ht
      simp only [List.mem_map, List.mem_range] at ht
      obtain ⟨j, hj, rfl⟩ := ht
      have hmapc : (scalarMul a (-1)).coefficients.getD
          (firstIndexOf (a.intervals.getD i 0) (scalarMul a (-1)).intervals) [] =
          (a.coefficients.getD i []).map (fun t => t * (-1)) := by
        show (a.coefficients.map _).getD (firstIndexOf (a.intervals.getD i 0) a.intervals) [] = _
        rw [hfi]
        exact getD_map_of_lt _ _ (by omega) [] []
      rw [hmapc, hfi, getD_map_mul_zero]
      simp

/-- C8: spline-addition algebra of `myspline::operator+`.
`Add(a, zero) = a` for the canonical zero spline (the default-constructed
empty spline, of any order not exceeding `a`'s); `Add(a, b) = Add(b, a)`
for all splines; and `Add(a, Scale(a, -1))` is the zero spline whose
support is the union of the supports (both equal to `a`'s support). -/
theorem claim8_add_algebra :
    (∀ a b : MySpline, validSpline a → b.intervals = [] → b.coefficients = [] →
      b.order ≤ a.order → addSpline a b = a) ∧
    (∀ a b : MySpline, addSpline a b = addSpline b a) ∧
    (∀ a : MySpline, validSpline a →
      (addSpline a (scalarMul a (-1))).intervals = a.intervals ∧
      isZero (addSpline a (scalarMul a (-1))) = true) :=
  ⟨fun _ _ hva hbi hbc hord => addSpline_zero hva hbi hbc hord,
   fun a b => addSpline_comm a b,
   fun _ hva => addSpline_neg_self hva⟩

theorem claim8_witness :
    addSpline ⟨0, [0, 1, 2], [[1], [2]]⟩ ⟨0, [], []⟩ = ⟨0, [0, 1, 2], [[1], [2]]⟩ ∧
    addSpline ⟨0, [0, 1, 2], [[1], [2]]⟩ ⟨1, [1, 2], [[5, 7]]⟩ =
      addSpline ⟨1, [1, 2], [[5, 7]]⟩ ⟨0, [0, 1, 2], [[1], [2]]⟩ ∧
    (addSpline ⟨0, [0, 1, 2], [[1], [2]]⟩
        (scalarMul ⟨0, [0, 1, 2], [[1], [2]]⟩ (-1))).intervals = [0, 1, 2] ∧
    isZero (addSpline ⟨0, [0, 1, 2], [[1], [2]]⟩
        (scalarMul ⟨0, [0, 1, 2], [[1], [2]]⟩ (-1))) = true :=
  ⟨claim8_add_algebra.1 ⟨0, [0, 1, 2], [[1], [2]]⟩ ⟨0, [], []⟩ (by decide) rfl rfl (by decide),
   claim8_add_algebra.2.1 _ _,
   (claim8_add_algebra.2.2 ⟨0, [0, 1, 2], [[1], [2]]⟩ (by decide)).1,
   (claim8_add_algebra.2.2 ⟨0, [0, 1, 2], [[1], [2]]⟩ (by decide)).2⟩

theorem slice_getD {g : List ℚ} {s : MySpline} {a : ℕ} (h : sliceAt g s a) {i : ℕ}
    (hi : i < s.intervals.length) : s.intervals.getD i 0 = g.getD (a + i) 0 := by
  obtain ⟨he, hle⟩ := h
  have hig : a + i < g.length := by omega
  rw [List.getD_eq_getElem _ _ hi, List.getD_eq_getElem _ _ hig,
    List.getElem_of_eq he hi, List.getElem_take, List.getElem_drop]

theorem slice_sorted {g : List ℚ} (hg : g.Sorted (· < ·)) {s : MySpline} {a : ℕ}
    (h : sliceAt g s a) : s.intervals.Sorted (· < ·) := by
  rw [h.1]
  exact List.Pairwise.sublist ((List.take_sublist _ _).trans (List.drop_sublist _ _)) hg

theorem sorted_getD_lt_iff {l : List ℚ} (hs : l.Sorted (· < ·)) {i j : ℕ}
    (hi : i < l.length) (hj : j < l.length) : l.getD i 0 < l.getD j 0 ↔ i < j := by
  constructor
  · intro h
    by_contra hle
    exact absurd h (not_lt.mpr (sorted_getD_le hs (not_lt.mp hle) hi))
  · intro h
    exact sorted_getD_lt hs h hj

theorem sorted_getD_le_iff {l : List ℚ} (hs : l.Sorted (· < ·)) {i j : ℕ}
    (hi : i < l.length) (hj : j < l.length) : l.getD i 0 ≤ l.getD j 0 ↔ i ≤ j := by
  constructor
  · intro h
    exact sorted_getD_index_le hs h hi
  · intro h
    exact sorted_getD_le hs h hj

theorem checkOverlap_iff {g : List ℚ} (hg : g.Sorted (· < ·)) {m1 m2 : MySpline}
    {a1 a2 : ℕ} (h1 : sliceAt g m1 a1) (h2 : sliceAt g m2 a2)
    (hl1 : 2 ≤ m1.intervals.length) (hl2 : 2 ≤ m2.intervals.length) :
    (checkOverlap m1 m2 = true ↔
      max a1 a2 + 2 ≤ min (a1 + m1.intervals.length) (a2 + m2.intervals.length)) := by
  have hne1 : m1.intervals.isEmpty = false := by
    cases hm : m1.intervals with
    | nil => rw [hm] at hl1; simp at hl1
    | cons x t => simp [hm]
  have hne2 : m2.intervals.isEmpty = false := by
    cases hm : m2.intervals with
    | nil => rw [hm] at hl2; simp at hl2
    | cons x t => simp [hm]
  have hh1 : m1.intervals.headD 0 = g.getD a1 0 := by
    rw [headD_eq_getD, slice_getD h1 (by omega), Nat.add_zero]
  have hh2 : m2.intervals.headD 0 = g.getD a2 0 := by
    rw [headD_eq_getD, slice_getD h2 (by omega), Nat.add_zero]
  have hb1 : m1.intervals.getLastD 0 = g.getD (a1 + (m1.intervals.length - 1)) 0 := by
    rw [getLastD_eq_getD _ (List.length_pos.mp (by omega)) 0, slice_getD h1 (by omega)]
  have hb2 : m2.intervals.getLastD 0 = g.getD (a2 + (m2.intervals.length - 1)) 0 := by
    rw [getLastD_eq_getD _ (List.length_pos.mp (by omega)) 0, slice_getD h2 (by omega)]
  rw [checkOverlap, hne1, hne2]
  rw [if_neg (by simp)]
  rw [hh1, hh2, hb1, hb2]
  simp only [Bool.not_eq_true', Bool.or_eq_false_iff, decide_eq_false_iff_not, not_le, ge_iff_le]
  have hAle : a1 < g.length := by obtain ⟨_, hle⟩ := h1; omega
  have hBle : a2 < g.length := by obtain ⟨_, hle⟩ := h2; omega
  have hA2 : a1 + (m1.intervals.length - 1) < g.length := by obtain ⟨_, hle⟩ := h1; omega
  have hB2 : a2 + (m2.intervals.length - 1) < g.length := by obtain ⟨_, hle⟩ := h2; omega
  rw [sorted_getD_lt_iff hg hAle hB2, sorted_getD_lt_iff hg hBle hA2]
  omega

theorem findOverlap_eq {g : List ℚ} (hg : g.Sorted (· < ·)) {m1 m2 : MySpline}
    {a1 a2 : ℕ} (h1 : sliceAt g m1 a1) (h2 : sliceAt g m2 a2)
    (hl1 : 2 ≤ m1.intervals.length) (hl2 : 2 ≤ m2.intervals.length) :
    (max a1 a2 + 2 ≤ min (a1 + m1.intervals.length) (a2 + m2.intervals.length) →
      findOverlappingIntervals m1 m2 =
        (max a1 a2 - a1, max a1 a2 - a2,
          min (a1 + m1.intervals.length) (a2 + m2.intervals.length) - 1 - max a1 a2)) ∧
    (min (a1 + m1.intervals.length) (a2 + m2.intervals.length) < max a1 a2 + 2 →
      findOverlappingIntervals m1 m2 = (0, 0, 0)) := by
  have hco := checkOverlap_iff hg h1 h2 hl1 hl2
  constructor
  · intro hov
    have hct : checkOverlap m1 m2 = true := hco.mpr hov
    have hh1 : m1.intervals.headD 0 = g.getD a1 0 := by
      rw [headD_eq_getD, slice_getD h1 (by omega), Nat.add_zero]
    have hh2 : m2.intervals.headD 0 = g.getD a2 0 := by
      rw [headD_eq_getD, slice_getD h2 (by omega), Nat.add_zero]
    have hAle : a1 < g.length := by obtain ⟨_, hle⟩ := h1; omega
    have hBle : a2 < g.length := by obtain ⟨_, hle⟩ := h2; omega
    rw [findOverlappingIntervals, if_neg (by rw [hct]; simp)]
    by_cases hcmp : m2.intervals.headD 0 ≤ m1.intervals.headD 0
    · have ha21 : a2 ≤ a1 := by
        rw [hh1, hh2, sorted_getD_le_iff hg hBle hAle] at hcmp
        exact hcmp
      rw [if_pos hcmp]
      have hidx : firstIndexOf (m1.intervals.headD 0) m2.intervals = a1 - a2 := by
        have hlt2 : a1 - a2 < m2.intervals.length := by omega
        have : m1.intervals.headD 0 = m2.intervals.getD (a1 - a2) 0 := by
          rw [hh1, slice_getD h2 hlt2]
          congr 1
          omega
        rw [this]
        exact firstIndexOf_getD (slice_sorted hg h2).nodup hlt2
      rw [hidx]
      have hmax : max a1 a2 = a1 := by omega
      rw [Prod.mk.injEq, Prod.mk.injEq]
      refine ⟨by omega, by omega, by omega⟩
    · have ha12 : a1 < a2 := by
        rw [hh1, hh2] at hcmp
        have := (sorted_getD_le_iff hg hBle hAle).not.mp hcmp
        omega
      rw [if_neg hcmp]
      have hidx : firstIndexOf (m2.intervals.headD 0) m1.intervals = a2 - a1 := by
        have hlt1 : a2 - a1 < m1.intervals.length := by omega
        have : m2.intervals.headD 0 = m1.intervals.getD (a2 - a1) 0 := by
          rw [hh2, slice_getD h1 hlt1]
          congr 1
          omega
        rw [this]
        exact firstIndexOf_getD (slice_sorted hg h1).nodup hlt1
      rw [hidx]
      rw [Prod.mk.injEq, Prod.mk.injEq]
      refine ⟨by omega, by omega, by omega⟩
  · intro hnov
    have hcf : checkOverlap m1 m2 = false := by
      rw [← Bool.not_eq_true, hco]
      omega
    rw [findOverlappingIntervals, if_pos hcf]

theorem conv_entry (p q : ℕ) (tc ac : List ℚ) (htc : tc.length = p + 1)
    (hac : ac.length = q + 1) (m : ℕ) :
    (∑ j ∈ Finset.range (p + 1), ∑ k ∈ Finset.range (q + 1),
      if j + k = m then tc.getD j 0 * ac.getD k 0 else 0) = convAt tc ac m := by
  rw [convAt]
  have hinner : ∀ j, (∑ k ∈ Finset.range (q + 1),
      if j + k = m then tc.getD j 0 * ac.getD k 0 else 0) =
      if j ≤ m then tc.getD j 0 * ac.getD (m - j) 0 else 0 := by
    intro j
    by_cases hj : j ≤ m
    · by_cases hq : m - j < q + 1
      · rw [Finset.sum_eq_single_of_mem (m - j) (Finset.mem_range.mpr hq)
          (fun k _ hne => if_neg (by omega)), if_pos (by omega), if_pos hj]
      · rw [Finset.sum_eq_zero (fun k hk =>
          if_neg (by rw [Finset.mem_range] at hk; omega)), if_pos hj,
          List.getD_eq_default ac _ (show ac.length ≤ m - j by omega), mul_zero]
    · rw [Finset.sum_eq_zero (fun k _ => if_neg (by omega)), if_neg hj]
  rw [Finset.sum_congr rfl (fun j _ => hinner j)]
  have hmem : (∑ j ∈ Finset.range (p + 1),
      if j ≤ m then tc.getD j 0 * ac.getD (m - j) 0 else 0) =
      ∑ j ∈ Finset.range (p + 1) ∩ Finset.range (m + 1),
        tc.getD j 0 * ac.getD (m - j) 0 := by
    rw [← Finset.sum_ite_mem]
    exact Finset.sum_congr rfl
      (fun j _ => if_congr (by rw [Finset.mem_range]; omega) rfl rfl)
  rw [hmem]
  refine Finset.sum_subset Finset.inter_subset_right (fun x hx hnx => ?_)
  have hxp : p + 1 ≤ x := by
    rw [Finset.mem_inter, not_and] at hnx
    rcases Nat.lt_or_ge x (p + 1) with h | h
    · exact absurd hx (hnx (Finset.mem_range.mpr h))
    · exact h
  rw [List.getD_eq_default _ _ (by omega), zero_mul]

theorem mulCoeffs_eq_conv {p q : ℕ} {tc ac : List ℚ} (htc : tc.length = p + 1)
    (hac : ac.length = q + 1) :
    mulCoeffs p q tc ac = (List.range (p + q + 1)).map (fun m => convAt tc ac m) :=
  List.map_congr_left (fun m _ => conv_entry p q tc ac htc hac m)

theorem allZero_getD {s : MySpline}
    (h : s.coefficients.all (fun cs => cs.all (fun c => c == 0)) = true) (idx j : ℕ) :
    (s.coefficients.getD idx []).getD j 0 = 0 := by
  by_cases hidx : idx < s.coefficients.length
  · rw [List.all_eq_true] at h
    have h2 := h _ (getD_mem_of_lt s.coefficients hidx [])
    rw [List.all_eq_true] at h2
    by_cases hj : j < (s.coefficients.getD idx []).length
    · have h3 := h2 _ (getD_mem_of_lt _ hj 0)
      rwa [beq_iff_eq] at h3
    · exact List.getD_eq_default _ _ (by omega)
  · rw [List.getD_eq_default _ _ (Nat.le_of_not_lt hidx)]
    rfl

theorem checkOverlap_false_left {m1 m2 : MySpline} (h : m1.intervals.isEmpty = true) :
    checkOverlap m1 m2 = false := by
  rw [checkOverlap, if_pos (by rw [h]; rfl)]

theorem checkOverlap_false_right {m1 m2 : MySpline} (h : m2.intervals.isEmpty = true) :
    checkOverlap m1 m2 = false := by
  rw [checkOverlap, if_pos (by rw [h]; simp)]

theorem mulSpline_no_overlap {m1 m2 : MySpline} (h : checkOverlap m1 m2 = false) :
    mulSpline m1 m2 = ⟨m1.order + m2.order, [], []⟩ := by
  have hfo : findOverlappingIntervals m1 m2 = (0, 0, 0) := by
    rw [findOverlappingIntervals, if_pos h]
  rw [mulSpline, hfo]
  simp

theorem mulSpline_isZero_left {m1 m2 : MySpline} (h : isZero m1 = true) :
    isZero (mulSpline m1 m2) = true := by
  rw [isZero, Bool.or_eq_true] at h
  rcases h with he | hall
  · rw [mulSpline_no_overlap (checkOverlap_false_left he)]
    rfl
  · rw [isZero, Bool.or_eq_true]
    refine Or.inr ?_
    rw [List.all_eq_true]
    intro cs hcs
    rw [mulSpline] at hcs
    split_ifs at hcs with hn
    · simp at hcs
    · simp only [List.mem_map, List.mem_range] at hcs
      obtain ⟨i, hi, rfl⟩ := hcs
      rw [mulCoeffs, List.all_eq_true]
      intro t ht
      simp only [List.mem_map, List.mem_range] at ht
      obtain ⟨m, hm, rfl⟩ := ht
      rw [beq_iff_eq]
      refine Finset.sum_eq_zero (fun j _ => Finset.sum_eq_zero (fun k _ => ?_))
      rw [allZero_getD hall, zero_mul, ite_self]

theorem mulSpline_isZero_right {m1 m2 : MySpline} (h : isZero m2 = true) :
    isZero (mulSpline m1 m2) = true := by
  rw [isZero, Bool.or_eq_true] at h
  rcases h with he | hall
  · rw [mulSpline_no_overlap (checkOverlap_false_right he)]
    rfl
  · rw [isZero, Bool.or_eq_true]
    refine Or.inr ?_
    rw [List.all_eq_true]
    intro cs hcs
    rw [mulSpline] at hcs
    split_ifs at hcs with hn
    · simp at hcs
    · simp only [List.mem_map, List.mem_range] at hcs
      obtain ⟨i, hi, rfl⟩ := hcs
      rw [mulCoeffs, List.all_eq_true]
      intro t ht
      simp only [List.mem_map, List.mem_range] at ht
      obtain ⟨m, hm, rfl⟩ := ht
      rw [beq_iff_eq]
      refine Finset.sum_eq_zero (fun j _ => Finset.sum_eq_zero (fun k _ => ?_))
      rw [allZero_getD hall, mul_zero, ite_self]

/-- C2: spline-spline multiplication of `myspline::operator*`.  On a
shared grid (both splines are contiguous slices of one strictly
increasing grid `g`) the result has order exactly `p + q` with
coefficient arrays of size `p + q + 1`; on each of the overlapping
intervals located by `findOverlappingIntervals` the break points of
the two operands coincide index-for-index and the result's coefficient
vector is the discrete convolution (`c[j+k] += a[j]·b[k]`) of the two
input coefficient vectors; and if either operand is zero, or the
supports do not overlap, the result is the zero spline of order
`p + q` (the no-overlap case being the empty spline). -/
theorem claim2_multiply (g : List ℚ) (hg : g.Sorted (· < ·)) (m1 m2 : MySpline)
    (hv1 : validSpline m1) (hv2 : validSpline m2)
    (a1 a2 : ℕ) (hs1 : sliceAt g m1 a1) (hs2 : sliceAt g m2 a2) :
    (mulSpline m1 m2).order = m1.order + m2.order ∧
    (∀ c ∈ (mulSpline m1 m2).coefficients, c.length = m1.order + m2.order + 1) ∧
    (∀ i < (findOverlappingIntervals m1 m2).2.2,
      m1.intervals.getD ((findOverlappingIntervals m1 m2).1 + i) 0 =
        m2.intervals.getD ((findOverlappingIntervals m1 m2).2.1 + i) 0 ∧
      (mulSpline m1 m2).coefficients.getD i [] =
        (List.range (m1.order + m2.order + 1)).map
          (fun m => convAt
            (m1.coefficients.getD ((findOverlappingIntervals m1 m2).1 + i) [])
            (m2.coefficients.getD ((findOverlappingIntervals m1 m2).2.1 + i) []) m)) ∧
    (isZero m1 = true → isZero (mulSpline m1 m2) = true) ∧
    (isZero m2 = true → isZero (mulSpline m1 m2) = true) ∧
    (checkOverlap m1 m2 = false → mulSpline m1 m2 = ⟨m1.order + m2.order, [], []⟩) := by
  obtain ⟨st1, cnt1, len1⟩ := hv1
  obtain ⟨st2, cnt2, len2⟩ := hv2
  refine ⟨?_, ?_, ?_, mulSpline_isZero_left, mulSpline_isZero_right, mulSpline_no_overlap⟩
  · rw [mulSpline]
    split_ifs <;> rfl
  · intro c hc
    rw [mulSpline] at hc
    split_ifs at hc
    · simp at hc
    · simp only [List.mem_map, List.mem_range] at hc
      obtain ⟨i, hi, rfl⟩ := hc
      rw [mulCoeffs]
      simp
  · intro i hin
    by_cases hemp : m1.intervals.isEmpty = true ∨ m2.intervals.isEmpty = true
    · exfalso
      have hcf : checkOverlap m1 m2 = false := by
        rcases hemp with he | he
        · exact checkOverlap_false_left he
        · exact checkOverlap_false_right he
      have hfo : findOverlappingIntervals m1 m2 = (0, 0, 0) := by
        rw [findOverlappingIntervals, if_pos hcf]
      rw [hfo] at hin
      exact absurd hin (Nat.not_lt_zero i)
    · push_neg at hemp
      obtain ⟨hne1, hne2⟩ := hemp
      have hl1 : 2 ≤ m1.intervals.length := by
        rcases cnt1 with ⟨hie, _⟩ | ⟨hl, _⟩
        · rw [hie] at hne1; simp at hne1
        · exact hl
      have hl2 : 2 ≤ m2.intervals.length := by
        rcases cnt2 with ⟨hie, _⟩ | ⟨hl, _⟩
        · rw [hie] at hne2; simp at hne2
        · exact hl
      have hc1 : m1.coefficients.length + 1 = m1.intervals.length := by
        rcases cnt1 with ⟨hie, _⟩ | ⟨_, hc⟩
        · rw [hie] at hl1; simp at hl1
        · exact hc
      have hc2 : m2.coefficients.length + 1 = m2.intervals.length := by
        rcases cnt2 with ⟨hie, _⟩ | ⟨_, hc⟩
        · rw [hie] at hl2; simp at hl2
        · exact hc
      obtain ⟨hov_imp, hnov_imp⟩ := findOverlap_eq hg hs1 hs2 hl1 hl2
      by_cases hov : max a1 a2 + 2 ≤ min (a1 + m1.intervals.length) (a2 + m2.intervals.length)
      · have hfo := hov_imp hov
        rw [hfo] at hin
        dsimp only at hin
        rw [hfo]
        dsimp only
        have hin1 : max a1 a2 - a1 + i < m1.intervals.length := by omega
        have hin2 : max a1 a2 - a2 + i < m2.intervals.length := by omega
        constructor
        · rw [slice_getD hs1 hin1, slice_getD hs2 hin2]
          congr 1
          omega
        · have hfo22 : (findOverlappingIntervals m1 m2).2.2 ≠ 0 := by
            rw [hfo]
            simp only
            omega
          rw [mulSpline, if_neg hfo22, hfo]
          dsimp only
          rw [getD_map_range ([] : List ℚ)
            (fun i => mulCoeffs m1.order m2.order
              (m1.coefficients.getD (max a1 a2 - a1 + i) [])
              (m2.coefficients.getD (max a1 a2 - a2 + i) [])), if_pos (by omega)]
          refine mulCoeffs_eq_conv ?_ ?_
          · exact len1 _ (getD_mem_of_lt _ (by omega) [])
          · exact len2 _ (getD_mem_of_lt _ (by omega) [])
      · have hfo := hnov_imp (by omega)
        rw [hfo] at hin
        exact absurd hin (Nat.not_lt_zero i)

theorem claim2_witness :
    (mulSpline ⟨1, [0, 1], [[1, 1]]⟩ ⟨1, [0, 1], [[1, 1]]⟩).order = 2 ∧
    (mulSpline ⟨1, [0, 1], [[1, 1]]⟩ ⟨1, [0, 1], [[1, 1]]⟩).coefficients.getD 0 [] =
      (List.range 3).map (fun m => convAt [1, 1] [1, 1] m) ∧
    mulSpline ⟨1, [0, 1], [[1, 1]]⟩ ⟨0, [5, 6], [[1]]⟩ = ⟨1, [], []⟩ := by
  have h := claim2_multiply [0, 1] (by decide) ⟨1, [0, 1], [[1, 1]]⟩ ⟨1, [0, 1], [[1, 1]]⟩
    (by decide) (by decide) 0 0 ⟨rfl, by decide⟩ ⟨rfl, by decide⟩
  have h2 := claim2_multiply [0, 1, 5, 6] (by decide) ⟨1, [0, 1], [[1, 1]]⟩
    ⟨0, [5, 6], [[1]]⟩ (by decide) (by decide) 0 2 ⟨rfl, by decide⟩ ⟨rfl, by decide⟩
  exact ⟨h.1, (h.2.2.1 0 (by decide)).2, h2.2.2.2.2.2 (by decide)⟩

theorem addEntry_length {a b : MySpline} (ha : ∀ c ∈ a.coefficients, c.length = a.order + 1)
    (hb : ∀ c ∈ b.coefficients, c.length = b.order + 1) {n : ℕ}
    (hn : max (a.order + 1) (b.order + 1) = n) (v : ℚ) : (addEntry n a b v).length = n := by
  rw [addEntry]
  split_ifs with h1 h2 h3
  · rw [changearraysize]
    simp
  · rw [changearraysize]
    simp
  · rw [addArr]
    simp only [List.length_map, List.length_range]
    have l1 := hb _ (getD_mem_of_lt _ h3.2 [])
    have l2 := ha _ (getD_mem_of_lt _ h3.1 [])
    omega
  · rw [make_array]
    simp

theorem two_le_length_of_two_mem {l : List ℚ} {x y : ℚ} (hx : x ∈ l) (hy : y ∈ l)
    (hne : x ≠ y) : 2 ≤ l.length := by
  cases l with
  | nil => simp at hx
  | cons a t =>
    cases t with
    | nil =>
      simp only [List.mem_singleton] at hx hy
      exact absurd (hx.trans hy.symm) hne
    | cons b t' =>
      simp only [List.length_cons]
      omega

theorem valid_addLike (a b : MySpline) (hva : validSpline a) (hvb : validSpline b)
    (ro : ℕ) (hro : max (a.order + 1) (b.order + 1) = ro + 1) :
    validSpline ⟨ro, makeuniquesorted (b.intervals ++ a.intervals),
      (List.range ((makeuniquesorted (b.intervals ++ a.intervals)).length - 1)).map
        (fun i => addEntry (ro + 1) a b
          ((makeuniquesorted (b.intervals ++ a.intervals)).getD i 0))⟩ := by
  obtain ⟨sta, cnta, lena⟩ := hva
  obtain ⟨stb, cntb, lenb⟩ := hvb
  refine ⟨by rw [steadily_iff_sorted]; exact makeuniquesorted_sorted _, ?_, ?_⟩
  · by_cases hM : makeuniquesorted (b.intervals ++ a.intervals) = []
    · exact Or.inl ⟨hM, by rw [hM]; rfl⟩
    · refine Or.inr ⟨?_, ?_⟩
      · obtain ⟨v, hvM⟩ := List.exists_mem_of_ne_nil _ hM
        rw [mem_makeuniquesorted, List.mem_append] at hvM
        rcases hvM with hv | hv
        · have hlb : 2 ≤ b.intervals.length := by
            rcases cntb with ⟨hie, _⟩ | ⟨hl, _⟩
            · rw [hie] at hv; simp at hv
            · exact hl
          have hsb : b.intervals.Sorted (· < ·) := steadily_iff_sorted.mp stb
          refine two_le_length_of_two_mem
            (x := b.intervals.getD 0 0) (y := b.intervals.getD 1 0) ?_ ?_ ?_
          · exact mem_makeuniquesorted.mpr (List.mem_append.mpr
              (Or.inl (getD_mem_of_lt _ (by omega) 0)))
          · exact mem_makeuniquesorted.mpr (List.mem_append.mpr
              (Or.inl (getD_mem_of_lt _ (by omega) 0)))
          · exact ne_of_lt (sorted_getD_lt hsb (by omega) (by omega))
        · have hla : 2 ≤ a.intervals.length := by
            rcases cnta with ⟨hie, _⟩ | ⟨hl, _⟩
            · rw [hie] at hv; simp at hv
            · exact hl
          have hsa : a.intervals.Sorted (· < ·) := steadily_iff_sorted.mp sta
          refine two_le_length_of_two_mem
            (x := a.intervals.getD 0 0) (y := a.intervals.getD 1 0) ?_ ?_ ?_
          · exact mem_makeuniquesorted.mpr (List.mem_append.mpr
              (Or.inr (getD_mem_of_lt _ (by omega) 0)))
          · exact mem_makeuniquesorted.mpr (List.mem_append.mpr
              (Or.inr (getD_mem_of_lt _ (by omega) 0)))
          · exact ne_of_lt (sorted_getD_lt hsa (by omega) (by omega))
      · have hpos : 1 ≤ (makeuniquesorted (b.intervals ++ a.intervals)).length := by
          rcases Nat.eq_zero_or_pos (makeuniquesorted (b.intervals ++ a.intervals)).length
            with h0 | h1
          · exact absurd (List.length_eq_zero.mp h0) hM
          · exact h1
        simp only [List.length_map, List.length_range]
        omega
  · intro c hc
    simp only [List.mem_map, List.mem_range] at hc
    obtain ⟨i, hi, rfl⟩ := hc
    exact addEntry_length lena lenb hro _

theorem valid_addSpline {a b : MySpline} (hva : validSpline a) (hvb : validSpline b) :
    validSpline (addSpline a b) :=
  valid_addLike a b hva hvb (max a.order b.order) (by omega)

theorem valid_addAssignSpline {a b : MySpline} (hva : validSpline a) (hvb : validSpline b)
    (hord : b.order ≤ a.order) : validSpline (addAssignSpline a b) :=
  valid_addLike a b hva hvb a.order (by omega)

theorem valid_scalarMul {s : MySpline} (h : validSpline s) (d : ℚ) :
    validSpline (scalarMul s d) := by
  obtain ⟨h1, h2, h3⟩ := h
  refine ⟨h1, ?_, ?_⟩
  · rcases h2 with ⟨hie, hce⟩ | ⟨hl, hc⟩
    · exact Or.inl ⟨hie, by rw [scalarMul, hce]; rfl⟩
    · exact Or.inr ⟨hl, by rw [scalarMul]; simpa using hc⟩
  · intro c hc
    rw [scalarMul] at hc
    simp only [List.mem_map] at hc
    obtain ⟨c0, hc0, rfl⟩ := hc
    rw [List.length_map]
    exact h3 c0 hc0

theorem valid_scalarMulAssign {s : MySpline} (h : validSpline s) (d : ℚ) :
    validSpline (scalarMulAssign s d) :=
  valid_scalarMul h d

theorem valid_subSpline {a b : MySpline} (hva : validSpline a) (hvb : validSpline b) :
    validSpline (subSpline a b) :=
  valid_addSpline hva (valid_scalarMul hvb (-1))

theorem valid_subAssignSpline {a b : MySpline} (hva : validSpline a) (hvb : validSpline b)
    (hord : b.order ≤ a.order) : validSpline (subAssignSpline a b) :=
  valid_addAssignSpline hva (valid_scalarMul hvb (-1)) hord

theorem valid_dxSpline {s : MySpline} (h : validSpline s) (n : ℕ) :
    validSpline (dxSpline n s) := by
  obtain ⟨h1, h2, h3⟩ := h
  rw [dxSpline]
  split_ifs with hn
  · exact ⟨rfl, Or.inl ⟨rfl, rfl⟩, by simp⟩
  · refine ⟨h1, ?_, ?_⟩
    · rcases h2 with ⟨hie, hce⟩ | ⟨hl, hc⟩
      · exact Or.inl ⟨hie, by rw [hce]; rfl⟩
      · exact Or.inr ⟨hl, by simpa using hc⟩
    · intro c hc
      simp only [List.mem_map] at hc
      obtain ⟨c0, hc0, rfl⟩ := hc
      simp

theorem valid_timesx {s : MySpline} (h : validSpline s) : validSpline (timesx s) := by
  obtain ⟨h1, h2, h3⟩ := h
  refine ⟨h1, ?_, ?_⟩
  · rcases h2 with ⟨hie, hce⟩ | ⟨hl, hc⟩
    · exact Or.inl ⟨hie, by rw [timesx, hce]; rfl⟩
    · refine Or.inr ⟨hl, ?_⟩
      rw [timesx]
      simpa using hc
  · intro c hc
    rw [timesx] at hc
    simp only [List.mem_map, List.mem_range] at hc
    obtain ⟨i, hi, rfl⟩ := hc
    simp [timesx]

theorem valid_invert {s : MySpline} (h : validSpline s) : validSpline (invert s) := by
  rw [invert]
  split_ifs with hz
  · exact h
  · obtain ⟨h1, h2, h3⟩ := h
    refine ⟨?_, ?_, ?_⟩
    · rw [steadily_iff_chain]
      rw [List.chain'_map, List.chain'_reverse]
      exact (steadily_iff_chain.mp h1).imp (fun a b hab => by
        simp only [flip]
        exact neg_lt_neg hab)
    · rcases h2 with ⟨hie, hce⟩ | ⟨hl, hc⟩
      · exact Or.inl ⟨by rw [hie]; rfl, by rw [hce]; rfl⟩
      · refine Or.inr ⟨by simpa using hl, by simpa using hc⟩
    · intro c hc
      simp only [List.mem_map, List.mem_range] at hc
      obtain ⟨i, hi, rfl⟩ := hc
      simp

theorem valid_convertSpline {s : MySpline} (h : validSpline s) (f : ℚ → ℚ)
    (hmono : steadilyIncreasingIntervals (s.intervals.map f) = true) :
    validSpline (convertSpline f s) := by
  obtain ⟨h1, h2, h3⟩ := h
  refine ⟨hmono, ?_, ?_⟩
  · rcases h2 with ⟨hie, hce⟩ | ⟨hl, hc⟩
    · exact Or.inl ⟨by rw [convertSpline, hie]; rfl, by rw [convertSpline, hce]; rfl⟩
    · exact Or.inr ⟨by rw [convertSpline]; simpa using hl, by rw [convertSpline]; simpa using hc⟩
  · intro c hc
    rw [convertSpline] at hc
    simp only [List.mem_map] at hc
    obtain ⟨c0, hc0, rfl⟩ := hc
    rw [List.length_map]
    exact h3 c0 hc0

theorem valid_mulSpline {g : List ℚ} (hg : g.Sorted (· < ·)) {m1 m2 : MySpline}
    {a1 a2 : ℕ} (hv1 : validSpline m1) (hv2 : validSpline m2)
    (hs1 : sliceAt g m1 a1) (hs2 : sliceAt g m2 a2) : validSpline (mulSpline m1 m2) := by
  by_cases hn : (findOverlappingIntervals m1 m2).2.2 = 0
  · rw [mulSpline, if_pos hn]
    exact ⟨rfl, Or.inl ⟨rfl, rfl⟩, by simp⟩
  · obtain ⟨st1, cnt1, len1⟩ := hv1
    obtain ⟨st2, cnt2, len2⟩ := hv2
    have hne1 : ¬m1.intervals.isEmpty = true := by
      intro he
      exact hn (by rw [findOverlappingIntervals, if_pos (checkOverlap_false_left he)])
    have hne2 : ¬m2.intervals.isEmpty = true := by
      intro he
      exact hn (by rw [findOverlappingIntervals, if_pos (checkOverlap_false_right he)])
    have hl1 : 2 ≤ m1.intervals.length := by
      rcases cnt1 with ⟨hie, _⟩ | ⟨hl, _⟩
      · rw [hie] at hne1; simp at hne1
      · exact hl
    have hl2 : 2 ≤ m2.intervals.length := by
      rcases cnt2 with ⟨hie, _⟩ | ⟨hl, _⟩
      · rw [hie] at hne2; simp at hne2
      · exact hl
    have hc1 : m1.coefficients.length + 1 = m1.intervals.length := by
      rcases cnt1 with ⟨hie, _⟩ | ⟨_, hc⟩
      · rw [hie] at hl1; simp at hl1
      · exact hc
    obtain ⟨hov_imp, hnov_imp⟩ := findOverlap_eq hg hs1 hs2 hl1 hl2
    by_cases hov : max a1 a2 + 2 ≤ min (a1 + m1.intervals.length) (a2 + m2.intervals.length)
    · have hfo := hov_imp hov
      have hnval : (findOverlappingIntervals m1 m2).2.2 =
          min (a1 + m1.intervals.length) (a2 + m2.intervals.length) - 1 - max a1 a2 := by
        rw [hfo]
      have hs1val : (findOverlappingIntervals m1 m2).1 = max a1 a2 - a1 := by rw [hfo]
      rw [mulSpline, if_neg hn, hnval, hs1val]
      have hnpos : 1 ≤ min (a1 + m1.intervals.length) (a2 + m2.intervals.length) - 1 -
          max a1 a2 := by
        rw [hnval] at hn
        omega
      refine ⟨?_, ?_, ?_⟩
      · rw [steadily_iff_chain]
        have hrw : min (a1 + m1.intervals.length) (a2 + m2.intervals.length) - 1 -
            max a1 a2 + 1 =
            (min (a1 + m1.intervals.length) (a2 + m2.intervals.length) - 1 -
              max a1 a2 - 1) + 1 + 1 := by omega
        rw [List.chain'_map, hrw]
        refine (List.chain'_range_succ _ _).mpr (fun m hm => ?_)
        have hi1 : max a1 a2 - a1 + m < m1.intervals.length := by omega
        have hi2 : max a1 a2 - a1 + (m + 1) < m1.intervals.length := by omega
        rw [slice_getD hs1 hi1, slice_getD hs1 hi2]
        refine sorted_getD_lt hg (by omega) (by obtain ⟨_, hle⟩ := hs1; omega)
      · refine Or.inr ⟨?_, ?_⟩
        · simp only [List.length_map, List.length_range]
          omega
        · simp only [List.length_map, List.length_range]
      · intro c hc
        simp only [List.mem_map, List.mem_range] at hc
        obtain ⟨i, hi, rfl⟩ := hc
        rw [mulCoeffs]
        simp
    · exact absurd (by rw [hnov_imp (by omega)]) hn

theorem map_range'_concat {α : Type} (f : ℕ → α) (a m : ℕ) :
    (List.range' a (m + 1)).map f = (List.range' a m).map f ++ [f (a + m)] := by
  rw [List.range'_concat, List.map_append, one_mul, List.map_cons, List.map_nil]

theorem chain'_lt_map_range' (f : ℕ → ℚ) (a m : ℕ)
    (h : ∀ j, a ≤ j → j + 1 < a + m → f j < f (j + 1)) :
    ((List.range' a m).map f).Chain' (· < ·) := by
  rw [List.range'_eq_map_range, List.map_map]
  cases m with
  | zero => exact List.chain'_nil
  | succ m' =>
    rw [List.chain'_map]
    refine (List.chain'_range_succ _ m').mpr (fun i hi => ?_)
    have hx := h (a + i) (by omega) (by omega)
    exact hx

theorem valid_restrictSupport {s : MySpline} (hv : validSpline s) (x0 x1 : ℚ) :
    validSpline (restrictSupport s x0 x1) := by
  obtain ⟨h1, h2, h3⟩ := hv
  have hsort : s.intervals.Sorted (· < ·) := steadily_iff_sorted.mp h1
  have main : ∀ k, k ≤ s.intervals.length - 1 →
      (((List.range k).foldl (restrictStep s x0 x1) ([], []) = (([] : List ℚ), ([] : List (List ℚ)))) ∧
        ∀ j, j < k → ¬(x0 ≤ s.intervals.getD j 0 ∧ s.intervals.getD (j + 1) 0 ≤ x1)) ∨
      (∃ a, a < k ∧ k + 1 < s.intervals.length ∧ s.intervals.getD (k + 1) 0 ≤ x1 ∧
        (∀ j, a ≤ j → j < k → (x0 ≤ s.intervals.getD j 0 ∧ s.intervals.getD (j + 1) 0 ≤ x1)) ∧
        (∀ j, j < a → ¬(x0 ≤ s.intervals.getD j 0 ∧ s.intervals.getD (j + 1) 0 ≤ x1)) ∧
        (List.range k).foldl (restrictStep s x0 x1) ([], []) =
          ((List.range' a (k - a)).map (fun j => s.intervals.getD j 0),
           (List.range' a (k - a)).map (fun j => s.coefficients.getD j []))) ∨
      (∃ a b, a ≤ b ∧ b < k ∧
        (∀ j, a ≤ j → j ≤ b → (x0 ≤ s.intervals.getD j 0 ∧ s.intervals.getD (j + 1) 0 ≤ x1)) ∧
        (∀ j, j < a → ¬(x0 ≤ s.intervals.getD j 0 ∧ s.intervals.getD (j + 1) 0 ≤ x1)) ∧
        (∀ j, b < j → j + 1 < s.intervals.length →
          ¬(x0 ≤ s.intervals.getD j 0 ∧ s.intervals.getD (j + 1) 0 ≤ x1)) ∧
        b + 1 < s.intervals.length ∧
        (List.range k).foldl (restrictStep s x0 x1) ([], []) =
          ((List.range' a (b - a + 2)).map (fun j => s.intervals.getD j 0),
           (List.range' a (b - a + 1)).map (fun j => s.coefficients.getD j []))) := by
    intro k
    induction k with
    | zero => exact fun _ => Or.inl ⟨rfl, fun j hj => absurd hj (Nat.not_lt_zero j)⟩
    | succ k ih =>
      intro hk1
      have hkL : k + 1 < s.intervals.length := by omega
      have hstep : (List.range (k + 1)).foldl (restrictStep s x0 x1) ([], []) =
          restrictStep s x0 x1 ((List.range k).foldl (restrictStep s x0 x1) ([], [])) k := by
        rw [List.range_succ, List.foldl_append, List.foldl_cons, List.foldl_nil]
      rcases ih (by omega) with ⟨hst, hnk⟩ | ⟨a, ha, hk2, hkx, hkept, hnk, hst⟩ |
        ⟨a, b, hab, hbk, hkept, hnka, hnkb, hbL, hst⟩
      · by_cases hk : x0 ≤ s.intervals.getD k 0 ∧ s.intervals.getD (k + 1) 0 ≤ x1
        · by_cases hpr : s.intervals.length ≤ k + 2 ∨ x1 < s.intervals.getD (k + 2) 0
          · refine Or.inr (Or.inr ⟨k, k, le_refl k, by omega, ?_, ?_, ?_, by omega, ?_⟩)
            · intro j hj1 hj2
              have : j = k := by omega
              rw [this]
              exact hk
            · exact fun j hj => hnk j (by omega)
            · intro j hbj hjL hkj
              rcases hpr with hL | hx
              · omega
              · have hle := sorted_getD_le hsort (show k + 2 ≤ j + 1 by omega) hjL
                exact absurd hkj.2 (not_le.mpr (lt_of_lt_of_le hx hle))
            · rw [hstep, hst, restrictStep, if_pos hk, if_pos hpr]
              have e1 : k - k + 2 = 2 := by omega
              have e2 : k - k + 1 = 1 := by omega
              rw [e1, e2]
              rfl
          · push_neg at hpr
            refine Or.inr (Or.inl ⟨k, by omega, by omega, ?_, ?_, ?_, ?_⟩)
            · exact hpr.2
            · intro j hj1 hj2
              have : j = k := by omega
              rw [this]
              exact hk
            · exact fun j hj => hnk j (by omega)
            · rw [hstep, hst, restrictStep, if_pos hk,
                if_neg (by push_neg; exact hpr)]
              have e1 : k + 1 - k = 1 := by omega
              rw [e1]
              rfl
        · refine Or.inl ⟨by rw [hstep, hst, restrictStep, if_neg hk], ?_⟩
          intro j hj
          rcases Nat.lt_or_ge j k with h | h
          · exact hnk j h
          · have : j = k := by omega
            rw [this]
            exact hk
      · have hkk : x0 ≤ s.intervals.getD k 0 ∧ s.intervals.getD (k + 1) 0 ≤ x1 := by
          refine ⟨le_trans (hkept a (le_refl a) ha).1 ?_, hkx⟩
          exact sorted_getD_le hsort (by omega) (by omega)
        by_cases hpr : s.intervals.length ≤ k + 2 ∨ x1 < s.intervals.getD (k + 2) 0
        · refine Or.inr (Or.inr ⟨a, k, by omega, by omega, ?_, hnk, ?_, by omega, ?_⟩)
          · intro j hj1 hj2
            rcases Nat.lt_or_ge j k with h | h
            · exact hkept j hj1 h
            · have : j = k := by omega
              rw [this]
              exact hkk
          · intro j hbj hjL hkj
            rcases hpr with hL | hx
            · omega
            · have hle := sorted_getD_le hsort (show k + 2 ≤ j + 1 by omega) hjL
              exact absurd hkj.2 (not_le.mpr (lt_of_lt_of_le hx hle))
          · rw [hstep, hst, restrictStep, if_pos hkk, if_pos hpr]
            dsimp only
            have e1 : k - a + 2 = (k - a + 1) + 1 := by omega
            rw [e1, map_range'_concat, map_range'_concat, map_range'_concat]
            have e3 : a + (k - a) = k := by omega
            have e4 : a + (k - a + 1) = k + 1 := by omega
            rw [e3, e4]
            simp
        · push_neg at hpr
          refine Or.inr (Or.inl ⟨a, by omega, by omega, hpr.2, ?_, hnk, ?_⟩)
          · intro j hj1 hj2
            rcases Nat.lt_or_ge j k with h | h
            · exact hkept j hj1 h
            · have : j = k := by omega
              rw [this]
              exact hkk
          · rw [hstep, hst, restrictStep, if_pos hkk,
              if_neg (by push_neg; exact hpr)]
            dsimp only
            have e2 : k + 1 - a = (k - a) + 1 := by omega
            rw [e2, map_range'_concat, map_range'_concat]
            have e3 : a + (k - a) = k := by omega
            rw [e3]
      · have hnkk : ¬(x0 ≤ s.intervals.getD k 0 ∧ s.intervals.getD (k + 1) 0 ≤ x1) :=
          hnkb k (by omega) (by omega)
        refine Or.inr (Or.inr ⟨a, b, hab, by omega, hkept, hnka, hnkb, hbL, ?_⟩)
        rw [hstep, hst, restrictStep, if_neg hnkk]
  have hfin := main (s.intervals.length - 1) (le_refl _)
  rcases hfin with ⟨hst, _⟩ | ⟨a, ha, hk2, _⟩ | ⟨a, b, hab, hbk, hkept, hnka, hnkb, hbL, hst⟩
  · rw [restrictSupport, hst]
    exact ⟨rfl, Or.inl ⟨rfl, rfl⟩, by simp⟩
  · omega
  · have hL2 : 2 ≤ s.intervals.length := by omega
    have hcfs : s.coefficients.length + 1 = s.intervals.length := by
      rcases h2 with ⟨hie, _⟩ | ⟨_, hc⟩
      · rw [hie] at hL2; simp at hL2
      · exact hc
    rw [restrictSupport, hst]
    refine ⟨?_, ?_, ?_⟩
    · rw [steadily_iff_chain]
      show ((List.range' a (b - a + 2)).map (fun j => s.intervals.getD j 0)).Chain' (· < ·)
      exact chain'_lt_map_range' _ a (b - a + 2)
        (fun j hj1 hj2 => sorted_getD_lt hsort (by omega) (by omega))
    · refine Or.inr ⟨?_, ?_⟩
      · show 2 ≤ ((List.range' a (b - a + 2)).map (fun j => s.intervals.getD j 0)).length
        simp only [List.length_map, List.length_range']
        omega
      · show ((List.range' a (b - a + 1)).map (fun j => s.coefficients.getD j [])).length + 1 =
          ((List.range' a (b - a + 2)).map (fun j => s.intervals.getD j 0)).length
        simp only [List.length_map, List.length_range']
    · intro c hc
      have hc2 : c ∈ (List.range' a (b - a + 1)).map (fun j => s.coefficients.getD j []) := hc
      simp only [List.mem_map] at hc2
      obtain ⟨j, hj, rfl⟩ := hc2
      rw [List.mem_range'_1] at hj
      show (s.coefficients.getD j []).length = s.order + 1
      exact h3 _ (getD_mem_of_lt _ (by omega) [])

/-- C9: every spline-returning operation of the legacy `myspline` class
preserves the data invariant asserted by `setData`/the constructor:
break points strictly increase, and either both the break-point list
and the coefficient list are empty or there are at least two break
points and exactly one more break point than coefficient arrays (plus
the `std::array` sizes fitting the result's order).  Spline
multiplication is stated under the library's same-grid precondition
(both operands are slices of one strictly increasing grid), `+=`/`-=`
under their static precondition `ordera ≤ order`, and `convert` under
the assertion's own condition that the cast keeps the break points
strictly increasing. -/
theorem claim9_invariant_preservation :
    (∀ (o : ℕ) (ivs : List ℚ) (cfs : List (List ℚ)),
      steadilyIncreasingIntervals ivs = true →
      (ivs = [] ∧ cfs = [] ∨ 2 ≤ ivs.length ∧ cfs.length + 1 = ivs.length) →
      (∀ c ∈ cfs, c.length = o + 1) → validSpline ⟨o, ivs, cfs⟩) ∧
    (∀ a b, validSpline a → validSpline b → validSpline (addSpline a b)) ∧
    (∀ a b, validSpline a → validSpline b → validSpline (subSpline a b)) ∧
    (∀ a b, validSpline a → validSpline b → b.order ≤ a.order →
      validSpline (addAssignSpline a b)) ∧
    (∀ a b, validSpline a → validSpline b → b.order ≤ a.order →
      validSpline (subAssignSpline a b)) ∧
    (∀ a d, validSpline a → validSpline (scalarMul a d) ∧ validSpline (scalarMulAssign a d) ∧
      validSpline (scalarDiv a d) ∧ validSpline (scalarDivAssign a d)) ∧
    (∀ (g : List ℚ) (a1 a2 : ℕ) m1 m2, g.Sorted (· < ·) → validSpline m1 → validSpline m2 →
      sliceAt g m1 a1 → sliceAt g m2 a2 → validSpline (mulSpline m1 m2)) ∧
    (∀ a n, validSpline a → validSpline (dxSpline n a)) ∧
    (∀ a, validSpline a → validSpline (timesx a)) ∧
    (∀ a x0 x1, validSpline a → validSpline (restrictSupport a x0 x1)) ∧
    (∀ a, validSpline a → validSpline (invert a)) ∧
    (∀ a f, validSpline a → steadilyIncreasingIntervals (a.intervals.map f) = true →
      validSpline (convertSpline f a)) := by
  refine ⟨?_, ?_, ?_, ?_, ?_, ?_, ?_, ?_, ?_, ?_, ?_, ?_⟩
  · exact fun o ivs cfs h1 h2 h3 => ⟨h1, h2, h3⟩
  · exact fun a b hva hvb => valid_addSpline hva hvb
  · exact fun a b hva hvb => valid_subSpline hva hvb
  · exact fun a b hva hvb hord => valid_addAssignSpline hva hvb hord
  · exact fun a b hva hvb hord => valid_subAssignSpline hva hvb hord
  · exact fun a d hva => ⟨valid_scalarMul hva d, valid_scalarMul hva d,
      valid_scalarMul hva (1 / d), valid_scalarMul hva (1 / d)⟩
  · exact fun g a1 a2 m1 m2 hg hv1 hv2 hs1 hs2 => valid_mulSpline hg hv1 hv2 hs1 hs2
  · exact fun a n hva => valid_dxSpline hva n
  · exact fun a hva => valid_timesx hva
  · exact fun a x0 x1 hva => valid_restrictSupport hva x0 x1
  · exact fun a hva => valid_invert hva
  · exact fun a f hva hmono => valid_convertSpline hva f hmono

theorem claim9_witness :
    validSpline ⟨0, [0, 1], [[5]]⟩ ∧
    validSpline (addSpline ⟨0, [0, 1, 2], [[1], [2]]⟩ ⟨0, [1, 2], [[3]]⟩) ∧
    validSpline (subSpline ⟨0, [0, 1, 2], [[1], [2]]⟩ ⟨0, [1, 2], [[3]]⟩) ∧
    validSpline (addAssignSpline ⟨0, [0, 1, 2], [[1], [2]]⟩ ⟨0, [1, 2], [[3]]⟩) ∧
    validSpline (subAssignSpline ⟨0, [0, 1, 2], [[1], [2]]⟩ ⟨0, [1, 2], [[3]]⟩) ∧
    validSpline (scalarMul ⟨0, [0, 1, 2], [[1], [2]]⟩ 3) ∧
    validSpline (scalarDiv ⟨0, [0, 1, 2], [[1], [2]]⟩ 3) ∧
    validSpline (mulSpline ⟨0, [0, 1, 2], [[1], [2]]⟩ ⟨1, [1, 2], [[3, 4]]⟩) ∧
    validSpline (dxSpline 1 ⟨1, [0, 1], [[3, 4]]⟩) ∧
    validSpline (timesx ⟨0, [0, 1], [[5]]⟩) ∧
    validSpline (restrictSupport ⟨0, [0, 1, 2], [[1], [2]]⟩ 0 1) ∧
    validSpline (invert ⟨0, [0, 1], [[5]]⟩) ∧
    validSpline (convertSpline (fun x => x) ⟨0, [0, 1], [[5]]⟩) := by
  refine ⟨?_, ?_, ?_, ?_, ?_, ?_, ?_, ?_, ?_, ?_, ?_, ?_, ?_⟩
  · exact claim9_invariant_preservation.1 0 [0, 1] [[5]] (by decide) (by decide) (by decide)
  · exact claim9_invariant_preservation.2.1 _ _ (by decide) (by decide)
  · exact claim9_invariant_preservation.2.2.1 _ _ (by decide) (by decide)
  · exact claim9_invariant_preservation.2.2.2.1 _ _ (by decide) (by decide) (by decide)
  · exact claim9_invariant_preservation.2.2.2.2.1 _ _ (by decide) (by decide) (by decide)
  · exact (claim9_invariant_preservation.2.2.2.2.2.1 _ 3 (by decide)).1
  · exact (claim9_invariant_preservation.2.2.2.2.2.1 _ 3 (by decide)).2.2.1
  · exact claim9_invariant_preservation.2.2.2.2.2.2.1 [0, 1, 2] 0 1 _ _ (by decide)
      (by decide) (by decide) ⟨rfl, by decide⟩ ⟨rfl, by decide⟩
  · exact claim9_invariant_preservation.2.2.2.2.2.2.2.1 _ 1 (by decide)
  · exact claim9_invariant_preservation.2.2.2.2.2.2.2.2.1 _ (by decide)
  · exact claim9_invariant_preservation.2.2.2.2.2.2.2.2.2.1 _ 0 1 (by decide)
  · exact claim9_invariant_preservation.2.2.2.2.2.2.2.2.2.2.1 _ (by decide)
  · exact claim9_invariant_preservation.2.2.2.2.2.2.2.2.2.2.2 _ _ (by decide) (by decide)

end BSplineVerif
